import Mathlib

/-!
Verification of the range-resolution and merged-cell-reconciliation engine of
the excel-batch-tool repository (`src/cell_utils.py`, `src/merged_cell_utils.py`,
`src/core.py`).  Python functions are shallowly embedded as executable Lean
definitions over an explicit sheet state; openpyxl, the storage collaborator,
is modelled by the small set of primitives the engine calls (cell read/write,
merge/unmerge, raw row deletion), following openpyxl's documented behaviour:
non-anchor cells of a merged region are read-only `MergedCell`s whose value is
`None`, merging discards non-anchor values, unmerging turns members into empty
ordinary cells, and raw row deletion shifts cell contents without touching
merged ranges or row-dimension flags.
-/

namespace ExcelBatch

instance {ε α : Type} [DecidableEq ε] [DecidableEq α] : DecidableEq (Except ε α) := fun a b =>
  match a, b with
  | .ok x, .ok y => if h : x = y then .isTrue (by rw [h]) else .isFalse (by simp [h])
  | .error x, .error y => if h : x = y then .isTrue (by rw [h]) else .isFalse (by simp [h])
  | .ok _, .error _ => .isFalse (by simp)
  | .error _, .ok _ => .isFalse (by simp)

/-- Cell values.  The engine only moves values around, so a single opaque-ish
value type suffices; we use `String`. -/
abbrev Val := String

/-- A (row, column) pair, 1-indexed, as in the Python code. -/
abbrev Coord := Nat × Nat

/-! ## Range parser (`cell_utils.py`) -/

/-- Full-width separator normalization: the two `str.replace` calls at the top
of `parse_cell_range` (`'，'→','`, `'：'→':'`). -/
def fwChar (c : Char) : Char :=
  if c = '，' then ',' else if c = '：' then ':' else c

/-- `range_str.replace('，', ',').replace('：', ':')` on the character list. -/
def normalizeFW (l : List Char) : List Char := l.map fwChar

/-- Split a character list on a separator character (Python `str.split(sep)`):
every occurrence separates, empty segments are kept. -/
def splitOnChar (sep : Char) : List Char → List (List Char)
  | [] => [[]]
  | c :: rest =>
    let r := splitOnChar sep rest
    if c = sep then [] :: r
    else match r with
      | [] => [[c]]
      | s :: ss => (c :: s) :: ss

/-- Python `str.strip()`: drop leading and trailing whitespace. -/
def trimChars (l : List Char) : List Char :=
  ((l.dropWhile Char.isWhitespace).reverse.dropWhile Char.isWhitespace).reverse

/-- One token of `parse_cell_range`: after stripping, a token containing `:` is
split into the two endpoints (Python `start, end = r.split(':')` raises a
`ValueError` when the token holds more than one `:`); otherwise it denotes the
degenerate pair `(r, r)`. -/
def parseRangeToken (tok : List Char) : Except String (String × String) :=
  let t := trimChars tok
  match splitOnChar ':' t with
  | [s] => .ok (⟨s⟩, ⟨s⟩)
  | [s, e] => .ok (⟨trimChars s⟩, ⟨trimChars e⟩)
  | _ => .error "too many values to unpack"

/-- `cell_utils.parse_cell_range`: normalize full-width separators, split on
commas, parse each token into a `(start_cell, end_cell)` pair. -/
def parse_cell_range (rangeStr : String) : Except String (List (String × String)) :=
  (splitOnChar ',' (normalizeFW rangeStr.data)).mapM parseRangeToken

/-- Greedy run of ASCII letters then the rest (`[A-Za-z]+` prefix). -/
def spanLetters (l : List Char) : List Char × List Char :=
  (l.takeWhile Char.isAlpha, l.dropWhile Char.isAlpha)

/-- Greedy run of ASCII digits then the rest (`\d+` prefix). -/
def spanDigits (l : List Char) : List Char × List Char :=
  (l.takeWhile Char.isDigit, l.dropWhile Char.isDigit)

/-- Decimal digits to a number (Python `int(row)`). -/
def digitsToNat (l : List Char) : Nat :=
  l.foldl (fun n c => 10 * n + (c.toNat - '0'.toNat)) 0

/-- openpyxl's `column_index_from_string`: case-insensitive base-26 letters,
`A = 1`; rejects column names longer than three letters. -/
def columnIndexFromString (letters : List Char) : Except String Nat :=
  if letters.length = 0 ∨ 3 < letters.length then
    .error (⟨letters⟩ ++ " is not a valid column name")
  else
    .ok (letters.foldl (fun n c => 26 * n + (c.toUpper.toNat - 'A'.toNat + 1)) 0)

/-- Does the token start with one or more letters followed by one or more
digits?  This is exactly the success condition of the *unanchored*
`re.match(r'([A-Za-z]+)(\d+)', cell_ref)` in `get_cell_coordinates`: trailing
characters after the digit run are not examined. -/
def hasCellPrefix (s : String) : Bool :=
  let (letters, rest) := spanLetters s.data
  let (digits, _) := spanDigits rest
  !letters.isEmpty && !digits.isEmpty

/-- `cell_utils.get_cell_coordinates`: match the leading letters/digits prefix
(`re.match` only anchors at the start, so trailing characters are ignored) and
return `(row, column)`. -/
def getCellCoordinates (cellRef : String) : Except String Coord :=
  let (letters, rest) := spanLetters cellRef.data
  let (digits, _) := spanDigits rest
  if letters.isEmpty || digits.isEmpty then
    .error ("无效的单元格引用: " ++ cellRef)
  else do
    let col ← columnIndexFromString letters
    .ok (digitsToNat digits, col)

/-! ## Sheet model (the openpyxl worksheet collaborator)

A worksheet is the finite store of non-empty cell values, the list of merged
regions, and the set of hidden row indexes (`row_dimensions[r].hidden`). -/

/-- A merged region rectangle, as exposed by `sheet.merged_cells.ranges`. -/
structure MRange where
  min_row : Nat
  min_col : Nat
  max_row : Nat
  max_col : Nat
deriving DecidableEq, Repr

/-- Structurally valid rectangle. -/
def MRange.wf (r : MRange) : Prop :=
  1 ≤ r.min_row ∧ r.min_row ≤ r.max_row ∧ 1 ≤ r.min_col ∧ r.min_col ≤ r.max_col

instance (r : MRange) : Decidable r.wf := by
  unfold MRange.wf
  infer_instance

/-- Membership of a coordinate in a rectangle (the containment test the Python
code writes as `min_row <= row <= max_row and min_col <= col <= max_col`). -/
def MRange.contains (r : MRange) (c : Coord) : Bool :=
  decide (r.min_row ≤ c.1) && decide (c.1 ≤ r.max_row) &&
  decide (r.min_col ≤ c.2) && decide (c.2 ≤ r.max_col)

/-- Top-left anchor coordinate of a region. -/
def MRange.anchor (r : MRange) : Coord := (r.min_row, r.min_col)

/-- Two rectangles are disjoint (valid sheets never have overlapping merged
regions). -/
def MRange.Disjoint (a b : MRange) : Prop :=
  ∀ c : Coord, ¬(a.contains c ∧ b.contains c)

/-- All coordinates of a rectangle, row-major, as the Python double loops
`for row in range(min_row, max_row + 1): for col in ...` produce them. -/
def MRange.memberCoords (r : MRange) : List Coord :=
  ((List.range (r.max_row + 1 - r.min_row)).map (· + r.min_row)).flatMap fun row =>
    ((List.range (r.max_col + 1 - r.min_col)).map (· + r.min_col)).map fun col => (row, col)

/-- Worksheet state. -/
structure Sheet where
  /-- Stored non-empty cell values (association list, first binding wins). -/
  cells : List (Coord × Val)
  /-- `sheet.merged_cells.ranges` in iteration order. -/
  merged : List MRange
  /-- Row indexes whose `row_dimensions[r].hidden` flag is set. -/
  hiddenRows : List Nat
deriving DecidableEq, Repr

/-- Raw lookup in the cell store. -/
def cellsLookup (l : List (Coord × Val)) (c : Coord) : Option Val :=
  (l.find? fun e => e.1 = c).map (·.2)

/-- Raw store update; storing `none` deletes the binding (an empty cell). -/
def cellsStore (l : List (Coord × Val)) (c : Coord) (v : Option Val) : List (Coord × Val) :=
  match v with
  | some x => (c, x) :: l.filter fun e => ¬(e.1 = c)
  | none => l.filter fun e => ¬(e.1 = c)

/-- The first merged region containing a coordinate, if any (the Python loops
over `sheet.merged_cells.ranges` and `break` on the first hit). -/
def coveringRegion (s : Sheet) (c : Coord) : Option MRange :=
  s.merged.find? (·.contains c)

/-- Is `c` a non-anchor member of some merged region?  Such cells are openpyxl
`MergedCell`s: their value reads as `None` and writing raises. -/
def isMergedNonAnchor (s : Sheet) (c : Coord) : Bool :=
  s.merged.any fun r => r.contains c && decide (c ≠ r.anchor)

/-- `sheet.cell(row, col).value` read: non-anchor members of merged regions
read as `None`. -/
def getCellValue (s : Sheet) (c : Coord) : Option Val :=
  if isMergedNonAnchor s c then none else cellsLookup s.cells c

/-- `sheet.cell(row, col).value = v`: raises (an `AttributeError`, modelled as
`Except.error`) when the target is a read-only `MergedCell`. -/
def setCellValueE (s : Sheet) (c : Coord) (v : Option Val) : Except Unit Sheet :=
  if isMergedNonAnchor s c then .error ()
  else .ok { s with cells := cellsStore s.cells c v }

/-- A write whose surrounding Python code catches (or, on a valid sheet, can
never trigger) the `MergedCell` error: failed writes leave the sheet as is. -/
def setCellValueSwallow (s : Sheet) (c : Coord) (v : Option Val) : Sheet :=
  match setCellValueE s c v with
  | .ok s' => s'
  | .error _ => s

/-- openpyxl `sheet.merge_cells`: registers the region and discards the stored
values of all members except the top-left anchor. -/
def mergeCellsRaw (s : Sheet) (r : MRange) : Sheet :=
  { s with
    cells := s.cells.filter fun e => ¬(r.contains e.1 ∧ e.1 ≠ r.anchor)
    merged := s.merged ++ [r] }

/-- openpyxl `sheet.unmerge_cells`: removes the region; former members other
than the anchor become ordinary empty cells. -/
def unmergeCellsRaw (s : Sheet) (r : MRange) : Sheet :=
  { s with
    cells := s.cells.filter fun e => ¬(r.contains e.1 ∧ e.1 ≠ r.anchor)
    merged := s.merged.erase r }

/-- openpyxl `sheet.delete_rows(idx, 1)`: the cells of row `idx` disappear and
rows below shift up; merged regions and row-dimension flags are NOT adjusted
(the documented openpyxl limitation this repository works around). -/
def delCells (idx : Nat) (l : List (Coord × Val)) : List (Coord × Val) :=
  l.filterMap fun e =>
    if e.1.1 = idx then none
    else if idx < e.1.1 then some ((e.1.1 - 1, e.1.2), e.2)
    else some e

def rawDeleteRow (s : Sheet) (idx : Nat) : Sheet :=
  { s with cells := delCells idx s.cells }

/-- `sheet.max_row`: the extent of the stored cells, including the
`MergedCell` members materialized by merged regions; at least 1. -/
def maxRowSheet (s : Sheet) : Nat :=
  max 1 (max ((s.cells.map (·.1.1)).foldr max 0) ((s.merged.map (·.max_row)).foldr max 0))

/-- `sheet.max_column`, symmetrically. -/
def maxColSheet (s : Sheet) : Nat :=
  max 1 (max ((s.cells.map (·.1.2)).foldr max 0) ((s.merged.map (·.max_col)).foldr max 0))

/-- Coordinates whose read value is non-`None` (the candidates collected by
`_get_data_range`'s scan of the sheet rectangle). -/
def dataCoords (s : Sheet) : List Coord :=
  (s.cells.map (·.1)).filter fun c => (getCellValue s c).isSome

/-- `ExcelProcessor._get_data_range`: bounding box `(min_row, max_row,
min_col, max_col)` of the non-empty cells, with the documented fallbacks for an
empty sheet. -/
def dataRange (s : Sheet) : Nat × Nat × Nat × Nat :=
  match dataCoords s with
  | [] => (1, maxRowSheet s, 1, maxColSheet s)
  | c :: cs =>
    ((cs.map (·.1)).foldr min c.1, (cs.map (·.1)).foldr max c.1,
     (cs.map (·.2)).foldr min c.2, (cs.map (·.2)).foldr max c.2)

/-! ## Cell-Range Executor (`cell_utils.process_cell_ranges`)

The executor threads the sheet and the set of already processed coordinates
(`processed_cells`) through the ranges.  The whole loop sits inside a single
`try`, so the first error — a token that fails `get_cell_coordinates`, or a
transformation raising on a cell — aborts the remaining work and yields
`{'success': False}`.  The trace records every coordinate on which the
transformation was invoked, in order. -/

structure ExecState where
  sheet : Sheet
  trace : List Coord
deriving DecidableEq, Repr

/-- Process one concrete coordinate: skip if already processed, otherwise
invoke the transformation and record the invocation; a raising transformation
aborts (`Except.error`) with the state at the failure point. -/
def execCoord (f : Sheet → Coord → Except Unit Sheet) (st : ExecState) (c : Coord) :
    Except ExecState ExecState :=
  if c ∈ st.trace then .ok st
  else
    match f st.sheet c with
    | .ok sh => .ok ⟨sh, st.trace ++ [c]⟩
    | .error _ => .error ⟨st.sheet, st.trace ++ [c]⟩

/-- Row-major coordinates of the rectangle spanned by two (unordered)
endpoints, after the `min`/`max` normalization in `process_cell_ranges`. -/
def rectCoords (a b : Coord) : List Coord :=
  (MRange.memberCoords ⟨min a.1 b.1, min a.2 b.2, max a.1 b.1, max a.2 b.2⟩)

/-- Process one `(start_cell, end_cell)` token of the range list. -/
def execRange (f : Sheet → Coord → Except Unit Sheet) (st : ExecState)
    (rg : String × String) : Except ExecState ExecState :=
  if rg.1 = rg.2 then
    match getCellCoordinates rg.1 with
    | .error _ => .error st
    | .ok c => execCoord f st c
  else
    match getCellCoordinates rg.1 with
    | .error _ => .error st
    | .ok a =>
      match getCellCoordinates rg.2 with
      | .error _ => .error st
      | .ok b => (rectCoords a b).foldlM (execCoord f) st

/-- `cell_utils.process_cell_ranges`: returns the final sheet, the invocation
trace, and the success flag of the result dictionary. -/
def processCellRanges (sheet : Sheet) (ranges : List (String × String))
    (f : Sheet → Coord → Except Unit Sheet) : Sheet × List Coord × Bool :=
  match ranges.foldlM (execRange f) ⟨sheet, []⟩ with
  | .ok st => (st.sheet, st.trace, true)
  | .error st => (st.sheet, st.trace, false)

/-! ## Content modification (`ExcelProcessor.modify_cell_content`, single sheet)

`modify_cell_content` normalizes the separators, parses the range list, runs a
pre-pass that redirects *single-cell* tokens lying inside a merged region to
that region's anchor, and then hands the very same range list to the raw
executor `process_cell_ranges` with a transformation that assigns
`cell.value = new_content`.  Any error turns into `{'success': False}`, with
mutations made so far remaining in the in-memory workbook. -/

/-- The pre-pass of `modify_cell_content` for one token (`core.py` lines
336-346): single-cell tokens inside a merged region write the new content to
the region's top-left cell. -/
def prePassStep (content : Val) (sh : Sheet) (rg : String × String) :
    Except Sheet Sheet :=
  if rg.1 = rg.2 then
    match getCellCoordinates rg.1 with
    | .error _ => .error sh
    | .ok c =>
      match coveringRegion sh c with
      | some r => .ok (setCellValueSwallow sh r.anchor (some content))
      | none => .ok sh
  else .ok sh

/-- `ExcelProcessor.modify_cell_content` restricted to one sheet: returns the
resulting in-memory sheet and the success flag of the returned dictionary.
(The method normalizes full-width separators before calling
`parse_cell_range`, which normalizes again — idempotent, so a single
`parse_cell_range` is faithful.) -/
def modifyCellContentSheet (s : Sheet) (cellPosition : String) (content : Val) :
    Sheet × Bool :=
  if cellPosition.data = [] then (s, false)
  else
    match parse_cell_range cellPosition with
    | .error _ => (s, false)
    | .ok ranges =>
      match ranges.foldlM (prePassStep content) s with
      | .error sh => (sh, false)
      | .ok sh =>
        let r := processCellRanges sh ranges fun st c => setCellValueE st c (some content)
        (r.1, r.2.2)

/-! ## Merge / unmerge operations (`merge_cells`, `process_merged_cells`) -/

/-- Parse of a `$`-optional cell reference with nothing left over, as
openpyxl's anchored coordinate regular expression accepts it. -/
def boundaryCell (l : List Char) : Option Coord :=
  let l := if l.head? = some '$' then l.tail else l
  let (letters, rest) := spanLetters l
  let rest := if rest.head? = some '$' then rest.tail else rest
  let (digits, rest') := spanDigits rest
  if letters.isEmpty || digits.isEmpty || !rest'.isEmpty || 3 < letters.length then none
  else
    match columnIndexFromString letters with
    | .ok col => some (digitsToNat digits, col)
    | .error _ => none

/-- openpyxl `range_boundaries` (the fragment the engine relies on): an ASCII
`A1` or `A1:B2` reference, full-match only — full-width separators or any
other stray characters make it raise.  Returns
`(min_col, min_row, max_col, max_row)`. -/
def rangeBoundaries (rangeStr : String) : Except Unit (Nat × Nat × Nat × Nat) :=
  match splitOnChar ':' rangeStr.data with
  | [t] =>
    match boundaryCell t with
    | some c => .ok (c.2, c.1, c.2, c.1)
    | none => .error ()
  | [t, u] =>
    match boundaryCell t, boundaryCell u with
    | some a, some b => .ok (a.2, a.1, b.2, b.1)
    | _, _ => .error ()
  | _ => .error ()

/-- The per-rectangle body of `ExcelProcessor.merge_cells` (after boundary
parsing): remember the top-left value, merge, and re-assign the top-left value
to the merged cell. -/
def mergeRectOp (s : Sheet) (r : MRange) : Sheet :=
  let v := getCellValue s r.anchor
  setCellValueSwallow (mergeCellsRaw s r) r.anchor v

/-- `ExcelProcessor.merge_cells` on one sheet, from the raw range string: the
string is handed to `range_boundaries` with NO full-width normalization, so an
unparseable string raises (`Except.error`). -/
def mergeCellsSheet (s : Sheet) (rangeStr : String) : Except Unit Sheet :=
  match rangeBoundaries rangeStr with
  | .error _ => .error ()
  | .ok (minCol, minRow, maxCol, maxRow) =>
    .ok (mergeRectOp s ⟨minRow, minCol, maxRow, maxCol⟩)

/-- `ExcelProcessor.process_merged_cells` with `mode='all'` on one sheet: walk
the snapshot of the merged ranges; for each, read the top-left value, unmerge,
and — for `action='keep_value'` — fill every member cell with that value. -/
def unmergeAllSheet (s : Sheet) (keepValue : Bool) : Sheet :=
  s.merged.foldl
    (fun sh r =>
      let v := getCellValue sh r.anchor
      let sh := unmergeCellsRaw sh r
      if keepValue then
        r.memberCoords.foldl (fun sh c => setCellValueSwallow sh c v) sh
      else sh)
    s

/-! ## Structural Edit Reconciler (`ExcelProcessor.delete_rows`, single sheet)

The deletion pipeline for one sheet (`core.py` lines 745-881):
collect the regions intersecting the deleted row band (column-scoped to the
data range) and the regions entirely below the band; for non-`ignore` modes
run `_process_merged_cells_in_range` and snapshot the *below* regions, for
`ignore` snapshot *all* affected regions; then unmerge whatever of the
snapshot is still merged, delete the rows from highest to lowest, and rebuild
each snapshot at its recomputed coordinates unless a skip condition fires. -/

inductive MergeMode
  | ignore
  | unmerge_only
  | unmerge_keep_value
deriving DecidableEq, Repr

/-- The `MergeReconciliationRecord` dictionaries of `merge_info_list`. -/
structure MergeInfo where
  min_row : Nat
  max_row : Nat
  min_col : Nat
  max_col : Nat
  value : Option Val
deriving DecidableEq, Repr

/-- The rectangle a record was snapshotted from. -/
def MergeInfo.rect (i : MergeInfo) : MRange := ⟨i.min_row, i.min_col, i.max_row, i.max_col⟩

/-- Snapshot a region's rectangle and current top-left value. -/
def snapshotInfo (s : Sheet) (r : MRange) : MergeInfo :=
  ⟨r.min_row, r.max_row, r.min_col, r.max_col, getCellValue s r.anchor⟩

/-- `_get_merged_cells_in_range`: regions intersecting the given rectangle. -/
def mergedCellsInRange (s : Sheet) (startRow endRow startCol endCol : Nat) : List MRange :=
  s.merged.filter fun r =>
    ¬(r.max_row < startRow ∨ endRow < r.min_row ∨ r.max_col < startCol ∨ endCol < r.min_col)

/-- The regions the deletion treats as intersecting the deleted band: the rows
of the band crossed with the column span of the data range. -/
def intersectingOf (s : Sheet) (position count : Nat) : List MRange :=
  let dr := dataRange s
  mergedCellsInRange s position (position + count - 1) dr.2.2.1 dr.2.2.2

/-- The regions entirely below the deleted band (`min_row > position + count - 1`). -/
def belowOf (s : Sheet) (position count : Nat) : List MRange :=
  s.merged.filter fun r => position + count - 1 < r.min_row

/-- `rows_to_delete = list(range(position, position + count))`. -/
def rowsToDelete (position count : Nat) : List Nat :=
  (List.range count).map (· + position)

/-- `_process_merged_cells_in_range` for one region, `merge_mode ≠ 'ignore'`:
read the top-left value, unmerge, then either broadcast the value to every
member cell (`unmerge_keep_value`) or re-assign it to the top-left cell
(`unmerge_only`).  (The Python writes are plain assignments; on the valid —
pairwise-disjoint — sheets of the theorems below they can never hit a
read-only `MergedCell`, so the swallowing write is equivalent.) -/
def processOneMerged (mode : MergeMode) (sh : Sheet) (r : MRange) : Sheet :=
  let v := getCellValue sh r.anchor
  match mode with
  | .unmerge_keep_value =>
    let sh := unmergeCellsRaw sh r
    r.memberCoords.foldl (fun sh c => setCellValueSwallow sh c v) sh
  | .unmerge_only =>
    setCellValueSwallow (unmergeCellsRaw sh r) r.anchor v
  | .ignore => sh

/-- `ExcelProcessor._process_merged_cells_in_range`: early return on
`'ignore'`, otherwise process each region. -/
def processMergedCellsInRange (s : Sheet) (regions : List MRange) (mode : MergeMode) : Sheet :=
  if mode = .ignore then s else regions.foldl (processOneMerged mode) s

/-- Delete the rows of the band one at a time from highest to lowest
(`for row_idx in sorted(rows_to_delete, reverse=True): sheet.delete_rows(row_idx, 1)`;
`rows_to_delete` is ascending, so sorting in reverse is `List.reverse`). -/
def deleteBandDesc (s : Sheet) (rows : List Nat) : Sheet :=
  rows.reverse.foldl rawDeleteRow s

/-- Recomputed min bound: `info['min_row'] - len([r for r in rows_to_delete if r < info['min_row']])`. -/
def newMinRow (rows : List Nat) (m : Nat) : Int :=
  (m : Int) - rows.countP (· < m)

/-- Recomputed max bound: `info['max_row'] - len([r for r in rows_to_delete if r <= info['max_row']])`. -/
def newMaxRow (rows : List Nat) (m : Nat) : Int :=
  (m : Int) - rows.countP (· ≤ m)

/-- The rectangle a reconciliation record is rebuilt at: recomputed row bounds
(truncated to `Nat`), original column bounds. -/
def rebuiltRect (rows : List Nat) (i : MergeInfo) : MRange :=
  ⟨(newMinRow rows i.min_row).toNat, i.min_col, (newMaxRow rows i.max_row).toNat, i.max_col⟩

/-- Step 3 of the pipeline for a single record: skip if the region's min row
was itself deleted, if the recomputed bounds are invalid, or if the rectangle
collapses to a single cell; re-merge and restore the anchor value only when
the recomputed row span is strictly more than one row
(`new_min_row < new_max_row`). -/
def rebuildOne (rows : List Nat) (s : Sheet) (i : MergeInfo) : Sheet :=
  if rows.contains i.min_row then s
  else if newMinRow rows i.min_row < 1 ∨ newMaxRow rows i.max_row < 1 ∨
      newMaxRow rows i.max_row < newMinRow rows i.min_row then s
  else if newMinRow rows i.min_row = newMaxRow rows i.max_row ∧ i.min_col = i.max_col then s
  else if 1 ≤ newMinRow rows i.min_row ∧ 1 ≤ newMaxRow rows i.max_row ∧
      newMinRow rows i.min_row < newMaxRow rows i.max_row then
    setCellValueSwallow (mergeCellsRaw s (rebuiltRect rows i)) (rebuiltRect rows i).anchor
      i.value
  else s

/-- Steps 1-3 when `merge_info_list` is non-empty: unmerge every still-merged
snapshot rectangle, delete the band in reverse order, rebuild each record.
An empty `merge_info_list` falls through to the direct reverse-order delete. -/
def runRebuild (s : Sheet) (info : List MergeInfo) (rows : List Nat) : Sheet :=
  if info = [] then deleteBandDesc s rows
  else
    let s1 := info.foldl
      (fun sh i => if i.rect ∈ sh.merged then unmergeCellsRaw sh i.rect else sh) s
    let s2 := deleteBandDesc s1 rows
    info.foldl (rebuildOne rows) s2

/-- `ExcelProcessor.delete_rows` on a single sheet.  (`merged_ranges =
list(set(intersect + below))` has arbitrary set order in Python; the two lists
are disjoint — a region cannot both meet the band and start below it — and all
per-region actions commute on valid sheets, so the concatenation order is a
faithful determinization.) -/
def deleteRowsSheet (s : Sheet) (position count : Nat) (mode : MergeMode) : Sheet :=
  let inter := intersectingOf s position count
  let below := belowOf s position count
  let affected := (inter ++ below).dedup
  let rows := rowsToDelete position count
  if affected ≠ [] ∧ mode ≠ .ignore then
    let s1 := processMergedCellsInRange s affected mode
    runRebuild s1 (below.map (snapshotInfo s1)) rows
  else if affected ≠ [] ∧ mode = .ignore then
    runRebuild s (affected.map (snapshotInfo s)) rows
  else
    deleteBandDesc s rows

/-! ## Batch layer (`delete_rows` over files and sheets, `delete_hidden_rows`) -/

/-- A workbook is its sheet list (`wb.sheetnames` order). -/
abbrev Workbook := List Sheet

/-- `ExcelProcessor.delete_rows` over every file and every selected sheet
index (the default path with no per-file worksheet selection): indexes out of
range are skipped by the `0 <= sheet_index < len(wb.sheetnames)` guard. -/
def deleteRowsBatch (files : List Workbook) (sheetIndexes : List Nat)
    (position count : Nat) (mode : MergeMode) : List Workbook :=
  files.map fun wb =>
    sheetIndexes.foldl
      (fun wb i =>
        if h : i < wb.length then wb.set i (deleteRowsSheet wb[i] position count mode)
        else wb)
      wb

/-- Hidden-row detection of `delete_hidden_rows`: scan rows `1` to
`max(sheet.max_row, 1000)` and collect those whose hidden flag is set. -/
def hiddenRowsOf (sh : Sheet) : List Nat :=
  (((List.range (max (maxRowSheet sh) 1000)).map (· + 1)).filter
    fun r => sh.hiddenRows.contains r)

/-- `sheet.row_dimensions[row].hidden = False`. -/
def clearHidden (sh : Sheet) (r : Nat) : Sheet :=
  { sh with hiddenRows := sh.hiddenRows.filter fun x => ¬(x = r) }

/-- Replace sheet `i` of workbook `fi` in the batch. -/
def setSheet (files : List Workbook) (fi i : Nat) (sh : Sheet) : List Workbook :=
  files.set fi ((files.getD fi []).set i sh)

/-- `delete_hidden_rows`, one selected sheet of one file: guard the index,
collect the sheet's hidden rows, and — from highest to lowest — clear the
hidden flag and delegate a one-row `delete_rows` call with the FULL
`sheet_indexes` list over the whole batch state. -/
def hiddenSheetStep (sheetIndexes : List Nat) (mode : MergeMode) (fi : Nat)
    (st : List Workbook) (i : Nat) : List Workbook :=
  if i < (st.getD fi []).length then
    let hs := hiddenRowsOf ((st.getD fi []).getD i ⟨[], [], []⟩)
    if hs = [] then st
    else
      hs.reverse.foldl
        (fun st r =>
          deleteRowsBatch
            (setSheet st fi i (clearHidden ((st.getD fi []).getD i ⟨[], [], []⟩) r))
            sheetIndexes r 1 mode)
        st
  else st

/-- `delete_hidden_rows`, all selected sheets of one file. -/
def hiddenFileStep (sheetIndexes : List Nat) (mode : MergeMode)
    (st : List Workbook) (fi : Nat) : List Workbook :=
  sheetIndexes.foldl (hiddenSheetStep sheetIndexes mode fi) st

def deleteHiddenRowsBatch (files : List Workbook) (sheetIndexes : List Nat)
    (mode : MergeMode) : List Workbook :=
  (List.range files.length).foldl (hiddenFileStep sheetIndexes mode) files

/-! ## Statement vocabulary -/

/-- The full-width-separator normalization as a `String → String` map. -/
def normalizeFullwidthStr (s : String) : String := ⟨normalizeFW s.data⟩

/-- The coordinates a single `(start_cell, end_cell)` token covers: the parsed
cell for a degenerate token, the normalized rectangle otherwise, nothing if
parsing fails. -/
def tokenCoords (rg : String × String) : List Coord :=
  if rg.1 = rg.2 then
    match getCellCoordinates rg.1 with
    | .ok a => [a]
    | .error _ => []
  else
    match getCellCoordinates rg.1, getCellCoordinates rg.2 with
    | .ok a, .ok b => rectCoords a b
    | _, _ => []

/-- Is the coordinate covered by the token? -/
def coversB (rg : String × String) (c : Coord) : Bool :=
  (tokenCoords rg).contains c

/-- Append-if-absent: the effect of one executor step on the
`processed_cells` trace. -/
def insertOnce (t : List Coord) (c : Coord) : List Coord :=
  if c ∈ t then t else t ++ [c]

/-- Valid sheets never carry overlapping merged regions (spec §3). -/
def PairwiseDisjoint (s : Sheet) : Prop :=
  s.merged.Pairwise MRange.Disjoint

/-- Both endpoint tokens of a range pair parse successfully. -/
def tokensOk (rg : String × String) : Prop :=
  (∃ a, getCellCoordinates rg.1 = .ok a) ∧ (∃ b, getCellCoordinates rg.2 = .ok b)

/-- The condition under which step 3 of the deletion pipeline actually
re-merges a record: its min row was not deleted, the recomputed min row is
valid, and the recomputed span still covers more than one ROW. -/
def rebuildFires (rows : List Nat) (i : MergeInfo) : Prop :=
  rows.contains i.min_row = false ∧ 1 ≤ newMinRow rows i.min_row ∧
    newMinRow rows i.min_row < newMaxRow rows i.max_row

instance (rows : List Nat) (i : MergeInfo) : Decidable (rebuildFires rows i) := by
  unfold rebuildFires
  infer_instance

/-! ## Basic lemmas about the storage primitives -/

theorem cellsLookup_nil (c : Coord) : cellsLookup [] c = none := rfl

theorem cellsLookup_cons (e : Coord × Val) (l : List (Coord × Val)) (c : Coord) :
    cellsLookup (e :: l) c = if e.1 = c then some e.2 else cellsLookup l c := by
  by_cases h : e.1 = c
  · simp [cellsLookup, List.find?_cons_of_pos, h]
  · simp [cellsLookup, List.find?_cons_of_neg, h]

theorem cellsLookup_filter (l : List (Coord × Val)) (p : Coord → Prop) [DecidablePred p]
    (c : Coord) :
    cellsLookup (l.filter fun e => ¬ p e.1) c = if p c then none else cellsLookup l c := by
  induction l with
  | nil => simp [cellsLookup_nil]
  | cons e l ih =>
    rw [List.filter_cons]
    by_cases hp : p e.1
    · rw [if_neg (by simp [hp])]
      rw [ih, cellsLookup_cons]
      by_cases hc : e.1 = c
      · subst hc
        simp [hp]
      · simp [hc]
    · rw [if_pos (by simp [hp])]
      rw [cellsLookup_cons, cellsLookup_cons, ih]
      by_cases hc : e.1 = c
      · subst hc
        simp [hp]
      · simp [hc]

theorem cellsLookup_store_self (l : List (Coord × Val)) (c : Coord) (v : Option Val) :
    cellsLookup (cellsStore l c v) c = v := by
  cases v with
  | none =>
    show cellsLookup (l.filter fun e => ¬(e.1 = c)) c = none
    rw [cellsLookup_filter l (fun x => x = c) c]
    simp
  | some x =>
    show cellsLookup ((c, x) :: l.filter fun e => ¬(e.1 = c)) c = some x
    rw [cellsLookup_cons]
    simp

theorem cellsLookup_store_other (l : List (Coord × Val)) (c c' : Coord) (v : Option Val)
    (h : c' ≠ c) : cellsLookup (cellsStore l c v) c' = cellsLookup l c' := by
  have base : cellsLookup (l.filter fun e => ¬(e.1 = c)) c' = cellsLookup l c' := by
    rw [cellsLookup_filter l (fun x => x = c) c']
    simp [h]
  cases v with
  | none => exact base
  | some x =>
    show cellsLookup ((c, x) :: l.filter fun e => ¬(e.1 = c)) c' = cellsLookup l c'
    rw [cellsLookup_cons]
    rw [if_neg (by simpa using fun hh : c = c' => h hh.symm)]
    exact base

/-! ## Rectangle and masking lemmas -/

theorem MRange.contains_iff (r : MRange) (c : Coord) :
    r.contains c = true ↔
      r.min_row ≤ c.1 ∧ c.1 ≤ r.max_row ∧ r.min_col ≤ c.2 ∧ c.2 ≤ r.max_col := by
  simp [MRange.contains, and_assoc]

theorem MRange.mem_memberCoords (r : MRange) (c : Coord) :
    c ∈ r.memberCoords ↔ r.contains c = true := by
  rcases c with ⟨x, y⟩
  simp only [MRange.memberCoords, List.mem_flatMap, List.mem_map, List.mem_range,
    MRange.contains_iff]
  constructor
  · rintro ⟨row, ⟨i, hi, rfl⟩, ⟨col, ⟨j, hj, rfl⟩, h⟩⟩
    obtain ⟨h1, h2⟩ := Prod.mk.injEq .. ▸ h
    simp only [Prod.mk.injEq] at h
    obtain ⟨rfl, rfl⟩ := h
    omega
  · rintro ⟨h1, h2, h3, h4⟩
    exact ⟨x, ⟨x - r.min_row, by omega, by omega⟩, ⟨y, ⟨y - r.min_col, by omega, by omega⟩, rfl⟩⟩

theorem MRange.anchor_contains (r : MRange) (h : r.wf) : r.contains r.anchor = true := by
  obtain ⟨h1, h2, h3, h4⟩ := h
  simp [MRange.contains_iff, MRange.anchor, h2, h4]

theorem isMergedNonAnchor_iff (s : Sheet) (c : Coord) :
    isMergedNonAnchor s c = true ↔
      ∃ r ∈ s.merged, r.contains c = true ∧ c ≠ r.anchor := by
  simp [isMergedNonAnchor, List.any_eq_true, and_assoc]

/-- On a pairwise-disjoint sheet the anchor of a merged region is never a
read-only `MergedCell`, so it reads from the raw store. -/
theorem disjoint_symm : Symmetric MRange.Disjoint := by
  intro a b h c hc
  exact h c ⟨hc.2, hc.1⟩

/-- Any two distinct regions of a pairwise-disjoint sheet are disjoint. -/
theorem disjoint_of_mem (s : Sheet) (hd : PairwiseDisjoint s) {a b : MRange}
    (ha : a ∈ s.merged) (hb : b ∈ s.merged) (hne : a ≠ b) : a.Disjoint b :=
  List.Pairwise.forall disjoint_symm hd ha hb hne

theorem anchor_not_masked (s : Sheet) (R : MRange) (hd : PairwiseDisjoint s)
    (hR : R ∈ s.merged) (hwf : R.wf) : isMergedNonAnchor s R.anchor = false := by
  by_contra h
  rw [Bool.not_eq_false, isMergedNonAnchor_iff] at h
  obtain ⟨K, hK, hKc, hKa⟩ := h
  rcases eq_or_ne R K with rfl | hne
  · exact hKa rfl
  · exact disjoint_of_mem s hd hR hK hne R.anchor ⟨R.anchor_contains hwf, hKc⟩

/-- Coordinates outside every merged region are never masked. -/
theorem not_masked_of_not_covered (s : Sheet) (c : Coord)
    (h : ∀ r ∈ s.merged, r.contains c = false) : isMergedNonAnchor s c = false := by
  by_contra hh
  rw [Bool.not_eq_false, isMergedNonAnchor_iff] at hh
  obtain ⟨r, hr, hrc, _⟩ := hh
  rw [h r hr] at hrc
  exact Bool.false_ne_true hrc

/-! ## Effect lemmas for the storage operations -/

@[simp] theorem setCellValueSwallow_merged (s : Sheet) (c : Coord) (v : Option Val) :
    (setCellValueSwallow s c v).merged = s.merged := by
  unfold setCellValueSwallow setCellValueE
  split
  next h =>
    split at h
    · exact absurd h (by simp)
    · cases h
      rfl
  next h =>
    split at h
    · rfl
    · cases h

@[simp] theorem setCellValueSwallow_hidden (s : Sheet) (c : Coord) (v : Option Val) :
    (setCellValueSwallow s c v).hiddenRows = s.hiddenRows := by
  unfold setCellValueSwallow setCellValueE
  split
  next h =>
    split at h
    · exact absurd h (by simp)
    · cases h
      rfl
  next h =>
    split at h
    · rfl
    · cases h

theorem setCellValueSwallow_of_not_masked (s : Sheet) (c : Coord) (v : Option Val)
    (h : isMergedNonAnchor s c = false) :
    setCellValueSwallow s c v = { s with cells := cellsStore s.cells c v } := by
  unfold setCellValueSwallow setCellValueE
  rw [if_neg (by simp [h])]

theorem setCellValueSwallow_lookup_other (s : Sheet) (c c' : Coord) (v : Option Val)
    (h : c' ≠ c) :
    cellsLookup (setCellValueSwallow s c v).cells c' = cellsLookup s.cells c' := by
  unfold setCellValueSwallow setCellValueE
  split
  next hE =>
    split at hE
    · exact absurd hE (by simp)
    · cases hE
      exact cellsLookup_store_other s.cells c c' v h
  next hE => rfl

@[simp] theorem mergeCellsRaw_merged (s : Sheet) (r : MRange) :
    (mergeCellsRaw s r).merged = s.merged ++ [r] := rfl

@[simp] theorem mergeCellsRaw_hidden (s : Sheet) (r : MRange) :
    (mergeCellsRaw s r).hiddenRows = s.hiddenRows := rfl

@[simp] theorem unmergeCellsRaw_merged (s : Sheet) (r : MRange) :
    (unmergeCellsRaw s r).merged = s.merged.erase r := rfl

@[simp] theorem unmergeCellsRaw_hidden (s : Sheet) (r : MRange) :
    (unmergeCellsRaw s r).hiddenRows = s.hiddenRows := rfl

/-- Merging and unmerging clear the same cells: members other than the anchor. -/
theorem clearRect_lookup (s : Sheet) (r : MRange) (c : Coord) :
    cellsLookup (s.cells.filter fun e => ¬(r.contains e.1 ∧ e.1 ≠ r.anchor)) c
      = if r.contains c ∧ c ≠ r.anchor then none else cellsLookup s.cells c :=
  cellsLookup_filter s.cells (fun x => r.contains x ∧ x ≠ r.anchor) c

theorem mergeCellsRaw_lookup (s : Sheet) (r : MRange) (c : Coord) :
    cellsLookup (mergeCellsRaw s r).cells c
      = if r.contains c ∧ c ≠ r.anchor then none else cellsLookup s.cells c :=
  clearRect_lookup s r c

theorem unmergeCellsRaw_lookup (s : Sheet) (r : MRange) (c : Coord) :
    cellsLookup (unmergeCellsRaw s r).cells c
      = if r.contains c ∧ c ≠ r.anchor then none else cellsLookup s.cells c :=
  clearRect_lookup s r c

@[simp] theorem rawDeleteRow_merged (s : Sheet) (i : Nat) :
    (rawDeleteRow s i).merged = s.merged := rfl

@[simp] theorem rawDeleteRow_hidden (s : Sheet) (i : Nat) :
    (rawDeleteRow s i).hiddenRows = s.hiddenRows := rfl

theorem delCells_lookup (l : List (Coord × Val)) (i x y : Nat) :
    cellsLookup (delCells i l) (x, y)
      = if x < i then cellsLookup l (x, y) else cellsLookup l (x + 1, y) := by
  induction l with
  | nil => by_cases h : x < i <;> simp [delCells, cellsLookup_nil, h]
  | cons e l ih =>
    rcases e with ⟨⟨er, ec⟩, ev⟩
    have hshape : delCells i ((((er, ec), ev)) :: l)
        = (if er = i then delCells i l
           else if i < er then ((er - 1, ec), ev) :: delCells i l
           else ((er, ec), ev) :: delCells i l) := by
      unfold delCells
      rw [List.filterMap_cons]
      by_cases h1 : er = i
      · rw [if_pos h1, if_pos h1]
      · rw [if_neg h1, if_neg h1]
        by_cases h2 : i < er
        · rw [if_pos h2, if_pos h2]
        · rw [if_neg h2, if_neg h2]
    rw [hshape]
    by_cases hx : x < i
    · rw [if_pos hx]
      by_cases h1 : er = i
      · rw [if_pos h1, ih, if_pos hx, cellsLookup_cons,
          if_neg (by simp only [Prod.mk.injEq]; omega)]
      · rw [if_neg h1]
        by_cases h2 : i < er
        · rw [if_pos h2, cellsLookup_cons, if_neg (by simp only [Prod.mk.injEq]; omega),
            ih, if_pos hx, cellsLookup_cons, if_neg (by simp only [Prod.mk.injEq]; omega)]
        · rw [if_neg h2, cellsLookup_cons, cellsLookup_cons, ih, if_pos hx]
    · rw [if_neg hx]
      by_cases h1 : er = i
      · rw [if_pos h1, ih, if_neg hx, cellsLookup_cons,
          if_neg (by simp only [Prod.mk.injEq]; omega)]
      · rw [if_neg h1]
        by_cases h2 : i < er
        · by_cases he : er - 1 = x ∧ ec = y
          · rw [if_pos h2, cellsLookup_cons, if_pos (by simp only [Prod.mk.injEq]; omega),
              cellsLookup_cons, if_pos (by simp only [Prod.mk.injEq]; omega)]
          · rw [if_pos h2, cellsLookup_cons, if_neg (by simp only [Prod.mk.injEq]; omega),
              ih, if_neg hx, cellsLookup_cons, if_neg (by simp only [Prod.mk.injEq]; omega)]
        · rw [if_neg h2, cellsLookup_cons, if_neg (by simp only [Prod.mk.injEq]; omega),
            ih, if_neg hx, cellsLookup_cons, if_neg (by simp only [Prod.mk.injEq]; omega)]

theorem rawDeleteRow_lookup (s : Sheet) (i : Nat) (x y : Nat) :
    cellsLookup (rawDeleteRow s i).cells (x, y)
      = if x < i then cellsLookup s.cells (x, y) else cellsLookup s.cells (x + 1, y) :=
  delCells_lookup s.cells i x y

/-! ## Deleted-band arithmetic -/

theorem rowsToDelete_succ (p n : Nat) :
    rowsToDelete p (n + 1) = rowsToDelete p n ++ [n + p] := by
  simp [rowsToDelete, List.range_succ]

theorem mem_rowsToDelete (p n x : Nat) :
    x ∈ rowsToDelete p n ↔ p ≤ x ∧ x < p + n := by
  simp only [rowsToDelete, List.mem_map, List.mem_range]
  constructor
  · rintro ⟨i, hi, rfl⟩
    omega
  · rintro ⟨h1, h2⟩
    exact ⟨x - p, by omega, by omega⟩

theorem rowsToDelete_contains (p n x : Nat) :
    (rowsToDelete p n).contains x = true ↔ p ≤ x ∧ x < p + n := by
  rw [List.contains_iff_exists_mem_beq]
  constructor
  · rintro ⟨a, ha, hb⟩
    rw [show x = a by simpa using hb] at *
    exact (mem_rowsToDelete p n a).1 ha
  · intro h
    exact ⟨x, (mem_rowsToDelete p n x).2 h, by simp⟩

theorem rowsToDelete_countP_lt (p n x : Nat) :
    (rowsToDelete p n).countP (fun r => decide (r < x)) = min (x - p) n := by
  induction n with
  | zero => simp [rowsToDelete]
  | succ n ih =>
    rw [rowsToDelete_succ, List.countP_append, ih]
    by_cases h : n + p < x
    · rw [show (List.countP (fun r => decide (r < x)) [n + p]) = 1 by simp [h]]
      omega
    · rw [show (List.countP (fun r => decide (r < x)) [n + p]) = 0 by simp; omega]
      omega

theorem rowsToDelete_countP_le (p n x : Nat) :
    (rowsToDelete p n).countP (fun r => decide (r ≤ x)) = min (x + 1 - p) n := by
  induction n with
  | zero => simp [rowsToDelete]
  | succ n ih =>
    rw [rowsToDelete_succ, List.countP_append, ih]
    by_cases h : n + p ≤ x
    · rw [show (List.countP (fun r => decide (r ≤ x)) [n + p]) = 1 by simp [h]]
      omega
    · rw [show (List.countP (fun r => decide (r ≤ x)) [n + p]) = 0 by simp; omega]
      omega

theorem foldl_rawDeleteRow_merged (l : List Nat) (s : Sheet) :
    (l.foldl rawDeleteRow s).merged = s.merged := by
  induction l generalizing s with
  | nil => rfl
  | cons a l ih => rw [List.foldl_cons, ih, rawDeleteRow_merged]

theorem foldl_rawDeleteRow_hidden (l : List Nat) (s : Sheet) :
    (l.foldl rawDeleteRow s).hiddenRows = s.hiddenRows := by
  induction l generalizing s with
  | nil => rfl
  | cons a l ih => rw [List.foldl_cons, ih, rawDeleteRow_hidden]

@[simp] theorem deleteBandDesc_merged (s : Sheet) (rows : List Nat) :
    (deleteBandDesc s rows).merged = s.merged :=
  foldl_rawDeleteRow_merged rows.reverse s

@[simp] theorem deleteBandDesc_hidden (s : Sheet) (rows : List Nat) :
    (deleteBandDesc s rows).hiddenRows = s.hiddenRows :=
  foldl_rawDeleteRow_hidden rows.reverse s

/-- Net effect of the reverse-order single-row deletions: rows above the band
keep their contents, rows from the band position onwards take the contents
that used to live `count` rows further down. -/
theorem deleteBand_shift (s : Sheet) (p n x y : Nat) :
    cellsLookup (deleteBandDesc s (rowsToDelete p n)).cells (x, y)
      = if x < p then cellsLookup s.cells (x, y) else cellsLookup s.cells (x + n, y) := by
  induction n generalizing s with
  | zero =>
    have : deleteBandDesc s (rowsToDelete p 0) = s := rfl
    rw [this]
    by_cases h : x < p <;> simp [h]
  | succ n ih =>
    have hstep : deleteBandDesc s (rowsToDelete p (n + 1))
        = deleteBandDesc (rawDeleteRow s (n + p)) (rowsToDelete p n) := by
      unfold deleteBandDesc
      rw [rowsToDelete_succ, List.reverse_append]
      rfl
    rw [hstep, ih, rawDeleteRow_lookup, rawDeleteRow_lookup]
    by_cases h : x < p
    · rw [if_pos h, if_pos h, if_pos (by omega)]
    · rw [if_neg h, if_neg h, if_neg (by omega),
        show x + n + 1 = x + (n + 1) from by omega]

/-! ## Executor lemmas -/

theorem fwChar_idem (c : Char) : fwChar (fwChar c) = fwChar c := by
  unfold fwChar
  split_ifs with h1 h2 <;> simp_all

theorem normalizeFW_idem (l : List Char) : normalizeFW (normalizeFW l) = normalizeFW l := by
  unfold normalizeFW
  rw [List.map_map]
  exact List.map_congr_left fun c _ => fwChar_idem c

theorem mem_insertOnce (t : List Coord) (c x : Coord) :
    x ∈ insertOnce t c ↔ x ∈ t ∨ x = c := by
  unfold insertOnce
  by_cases h : c ∈ t
  · rw [if_pos h]
    constructor
    · exact Or.inl
    · rintro (hx | rfl)
      · exact hx
      · exact h
  · rw [if_neg h]
    simp

theorem nodup_insertOnce (t : List Coord) (c : Coord) (h : t.Nodup) :
    (insertOnce t c).Nodup := by
  unfold insertOnce
  by_cases hc : c ∈ t
  · rwa [if_pos hc]
  · rw [if_neg hc, List.nodup_append]
    exact ⟨h, List.nodup_singleton c, by simpa using hc⟩

theorem mem_foldl_insertOnce (cs : List Coord) (t : List Coord) (x : Coord) :
    x ∈ cs.foldl insertOnce t ↔ x ∈ t ∨ x ∈ cs := by
  induction cs generalizing t with
  | nil => simp
  | cons c cs ih =>
    rw [List.foldl_cons, ih, mem_insertOnce]
    simp [or_assoc]

theorem nodup_foldl_insertOnce (cs : List Coord) (t : List Coord) (h : t.Nodup) :
    (cs.foldl insertOnce t).Nodup := by
  induction cs generalizing t with
  | nil => exact h
  | cons c cs ih => exact ih _ (nodup_insertOnce t c h)

theorem execCoord_ok (f : Sheet → Coord → Except Unit Sheet)
    (hf : ∀ sh c, ∃ sh', f sh c = .ok sh') (sh : Sheet) (t : List Coord) (c : Coord) :
    ∃ sh', execCoord f ⟨sh, t⟩ c = .ok ⟨sh', insertOnce t c⟩ := by
  unfold execCoord insertOnce
  by_cases h : c ∈ t
  · rw [if_pos h, if_pos h]
    exact ⟨sh, rfl⟩
  · obtain ⟨sh', hsh⟩ := hf sh c
    rw [if_neg h, if_neg h, hsh]
    exact ⟨sh', rfl⟩

theorem foldlM_execCoord_ok (f : Sheet → Coord → Except Unit Sheet)
    (hf : ∀ sh c, ∃ sh', f sh c = .ok sh') (cs : List Coord) (sh : Sheet) (t : List Coord) :
    ∃ sh', cs.foldlM (execCoord f) (⟨sh, t⟩ : ExecState)
      = .ok ⟨sh', cs.foldl insertOnce t⟩ := by
  induction cs generalizing sh t with
  | nil => exact ⟨sh, rfl⟩
  | cons c cs ih =>
    obtain ⟨sh1, h1⟩ := execCoord_ok f hf sh t c
    obtain ⟨sh2, h2⟩ := ih sh1 (insertOnce t c)
    refine ⟨sh2, ?_⟩
    rw [List.foldlM_cons, h1]
    exact h2

theorem execRange_ok (f : Sheet → Coord → Except Unit Sheet)
    (hf : ∀ sh c, ∃ sh', f sh c = .ok sh') (rg : String × String) (hok : tokensOk rg)
    (sh : Sheet) (t : List Coord) :
    ∃ sh', execRange f ⟨sh, t⟩ rg = .ok ⟨sh', (tokenCoords rg).foldl insertOnce t⟩ := by
  obtain ⟨⟨a, ha⟩, ⟨b, hb⟩⟩ := hok
  by_cases h : rg.1 = rg.2
  · obtain ⟨sh', h'⟩ := execCoord_ok f hf sh t a
    refine ⟨sh', ?_⟩
    unfold execRange tokenCoords
    simp only [if_pos h, ha, h']
    rfl
  · unfold execRange tokenCoords
    simp only [if_neg h, ha, hb]
    exact foldlM_execCoord_ok f hf (rectCoords a b) sh t

theorem foldlM_execRange_ok (f : Sheet → Coord → Except Unit Sheet)
    (hf : ∀ sh c, ∃ sh', f sh c = .ok sh') (ranges : List (String × String))
    (hok : ∀ rg ∈ ranges, tokensOk rg) (sh : Sheet) (t : List Coord) :
    ∃ sh', ranges.foldlM (execRange f) (⟨sh, t⟩ : ExecState)
      = .ok ⟨sh', ranges.foldl (fun t rg => (tokenCoords rg).foldl insertOnce t) t⟩ := by
  induction ranges generalizing sh t with
  | nil => exact ⟨sh, rfl⟩
  | cons rg ranges ih =>
    obtain ⟨sh1, h1⟩ := execRange_ok f hf rg (hok rg (by simp)) sh t
    obtain ⟨sh2, h2⟩ := ih (fun r hr => hok r (by simp [hr])) sh1 _
    refine ⟨sh2, ?_⟩
    rw [List.foldlM_cons, h1]
    exact h2

theorem mem_rangesFold_insertOnce (ranges : List (String × String)) (t : List Coord)
    (x : Coord) :
    x ∈ ranges.foldl (fun t rg => (tokenCoords rg).foldl insertOnce t) t
      ↔ x ∈ t ∨ ∃ rg ∈ ranges, x ∈ tokenCoords rg := by
  induction ranges generalizing t with
  | nil => simp
  | cons rg ranges ih =>
    rw [List.foldl_cons, ih, mem_foldl_insertOnce]
    simp [or_assoc]

theorem nodup_rangesFold_insertOnce (ranges : List (String × String)) (t : List Coord)
    (h : t.Nodup) :
    (ranges.foldl (fun t rg => (tokenCoords rg).foldl insertOnce t) t).Nodup := by
  induction ranges generalizing t with
  | nil => exact h
  | cons rg ranges ih => exact ih _ (nodup_foldl_insertOnce _ t h)

theorem coversB_iff (rg : String × String) (c : Coord) :
    coversB rg c = true ↔ c ∈ tokenCoords rg := by
  simp [coversB, List.contains_iff_exists_mem_beq]

/-! ## Claims C4-C8 -/

/-- C4 (counterexample): the claimed count is wrong.  `"A1:B2,B2:C3"` parses
into the two rectangles `A1:B2` and `B2:C3`, whose union covers SEVEN distinct
cells — `A1, B1, A2, B2, C2, B3, C3` — and the executor invokes the
transformation exactly once on each of the seven, in particular on `B3`,
which the claim's list of six omits. -/
theorem overlap_example_visits_seven_cells :
    parse_cell_range "A1:B2,B2:C3" = .ok [("A1", "B2"), ("B2", "C3")] ∧
    (processCellRanges ⟨[], [], []⟩ [("A1", "B2"), ("B2", "C3")]
        (fun st _ => .ok st)).2.1
      = [(1, 1), (1, 2), (2, 1), (2, 2), (2, 3), (3, 2), (3, 3)] ∧
    (3, 2) ∈ (processCellRanges ⟨[], [], []⟩ [("A1", "B2"), ("B2", "C3")]
        (fun st _ => .ok st)).2.1 := by
  refine ⟨by decide, by decide, by decide⟩

/-- C4 (amended): for every range list whose tokens parse and every
non-raising transformation, `process_cell_ranges` succeeds and invokes the
transformation exactly once per distinct coordinate covered by the range list,
regardless of overlaps (the concrete example `"A1:B2,B2:C3"` covers seven
cells, not six). -/
theorem process_cell_ranges_visits_each_covered_coord_once
    (s : Sheet) (ranges : List (String × String)) (f : Sheet → Coord → Except Unit Sheet)
    (hf : ∀ sh c, ∃ sh', f sh c = .ok sh') (hok : ∀ rg ∈ ranges, tokensOk rg) :
    (processCellRanges s ranges f).2.2 = true ∧
    (processCellRanges s ranges f).2.1.Nodup ∧
    ∀ c : Coord, c ∈ (processCellRanges s ranges f).2.1
      ↔ ranges.any (fun rg => coversB rg c) = true := by
  obtain ⟨sh', hfold⟩ := foldlM_execRange_ok f hf ranges hok s []
  have hres : processCellRanges s ranges f
      = (sh', ranges.foldl (fun t rg => (tokenCoords rg).foldl insertOnce t) [], true) := by
    unfold processCellRanges
    rw [hfold]
  rw [hres]
  refine ⟨rfl, nodup_rangesFold_insertOnce ranges [] (by simp), fun c => ?_⟩
  rw [mem_rangesFold_insertOnce ranges [] c]
  constructor
  · rintro (h | ⟨rg, hrg, hcov⟩)
    · simp at h
    · exact List.any_eq_true.2 ⟨rg, hrg, (coversB_iff rg c).2 hcov⟩
  · intro hc
    obtain ⟨rg, hrg, hcov⟩ := List.any_eq_true.1 hc
    exact Or.inr ⟨rg, hrg, (coversB_iff rg c).1 hcov⟩

/-- C4 (witness): the amended theorem applied to the concrete overlapping
input, checking success, dedup, and membership of `B3`. -/
theorem process_cell_ranges_visits_each_covered_coord_once_witness :
    (processCellRanges ⟨[], [], []⟩ [("A1", "B2"), ("B2", "C3")]
        (fun st _ => .ok st)).2.2 = true ∧
    (processCellRanges ⟨[], [], []⟩ [("A1", "B2"), ("B2", "C3")]
        (fun st _ => .ok st)).2.1.Nodup ∧
    ((3, 2) ∈ (processCellRanges ⟨[], [], []⟩ [("A1", "B2"), ("B2", "C3")]
        (fun st _ => .ok st)).2.1
      ↔ ([("A1", "B2"), ("B2", "C3")].any fun rg => coversB rg (3, 2)) = true) := by
  have h := process_cell_ranges_visits_each_covered_coord_once ⟨[], [], []⟩
    [("A1", "B2"), ("B2", "C3")] (fun st _ => .ok st) (fun sh _ => ⟨sh, rfl⟩)
    (by
      intro rg hrg
      simp only [List.mem_cons, List.not_mem_nil, or_false] at hrg
      rcases hrg with rfl | rfl
      · exact ⟨⟨(1, 1), by decide⟩, ⟨(2, 2), by decide⟩⟩
      · exact ⟨⟨(2, 2), by decide⟩, ⟨(3, 3), by decide⟩⟩)
  exact ⟨h.1, h.2.1, h.2.2 (3, 2)⟩

/-- C5 (code_bug): `modify_cell_content` does not implement the anchor-only
policy it is documented to provide — it hands the literal ranges to the raw
executor, whose per-cell write raises on read-only non-anchor `MergedCell`s.
On a sheet with merged region `A1:B2` (anchor value `"old"`), modifying
`"A1:B2"` writes the anchor and then fails on `B1`; modifying the member
`"B2"` has the pre-pass write the anchor, after which the raw executor still
fails on `B2` itself.  Both calls report failure instead of the claimed
anchor-once/skip behaviour. -/
theorem modify_content_on_merged_range_fails :
    modifyCellContentSheet ⟨[((1, 1), "old")], [⟨1, 1, 2, 2⟩], []⟩ "A1:B2" "new"
      = (⟨[((1, 1), "new")], [⟨1, 1, 2, 2⟩], []⟩, false) ∧
    modifyCellContentSheet ⟨[((1, 1), "old")], [⟨1, 1, 2, 2⟩], []⟩ "B2" "new"
      = (⟨[((1, 1), "new")], [⟨1, 1, 2, 2⟩], []⟩, false) := by
  refine ⟨by decide, by decide⟩

/-- C6 (counterexample): a transformation raising on `A1` makes the executor
return `{'success': False}` with `B1` never processed — the single `try` block
around the whole loop aborts the remaining cells instead of skipping just the
failing one. -/
theorem failing_cell_aborts_remaining :
    processCellRanges ⟨[], [], []⟩ [("A1", "A1"), ("B1", "B1")]
        (fun st c => if c = (1, 1) then .error () else .ok st)
      = (⟨[], [], []⟩, [(1, 1)], false) ∧
    (1, 2) ∉ (processCellRanges ⟨[], [], []⟩ [("A1", "A1"), ("B1", "B1")]
        (fun st c => if c = (1, 1) then .error () else .ok st)).2.1 := by
  refine ⟨by decide, by decide⟩

/-- C6 (amended): a per-cell error inside `process_cell_ranges` is caught and
converted into a structured `{'success': False}` result (no exception escapes
to the caller), but it short-circuits the executor: once a range aborts, none
of the remaining ranges is processed. -/
theorem process_cell_ranges_error_short_circuits
    (s : Sheet) (r0 : String × String) (rest : List (String × String))
    (f : Sheet → Coord → Except Unit Sheet) (st' : ExecState)
    (h : execRange f ⟨s, []⟩ r0 = .error st') :
    processCellRanges s (r0 :: rest) f = (st'.sheet, st'.trace, false) := by
  unfold processCellRanges
  rw [List.foldlM_cons, h]
  rfl

/-- C6 (witness): the short-circuit theorem at a concrete aborting range. -/
theorem process_cell_ranges_error_short_circuits_witness :
    processCellRanges ⟨[], [], []⟩ [("A1", "A1"), ("B1", "B1")]
        (fun _ _ => .error ())
      = (⟨[], [], []⟩, [(1, 1)], false) :=
  process_cell_ranges_error_short_circuits ⟨[], [], []⟩ ("A1", "A1") [("B1", "B1")]
    (fun _ _ => .error ()) ⟨⟨[], [], []⟩, [(1, 1)]⟩ (by decide)

/-- C7 (counterexample): `get_cell_coordinates` uses an UNANCHORED `re.match`,
so the malformed token `"A1X"` (trailing extra characters) does NOT fail — it
parses as `A1`.  Moreover a genuinely unparseable later token does not abort
before mutation: processing `"A1,@@"` writes `A1` first and only then fails. -/
theorem trailing_garbage_token_accepted :
    getCellCoordinates "A1X" = .ok (1, 1) ∧
    processCellRanges ⟨[], [], []⟩ [("A1", "A1"), ("@@", "@@")]
        (fun st c => setCellValueE st c (some "w"))
      = (⟨[((1, 1), "w")], [], []⟩, [(1, 1)], false) := by
  refine ⟨by decide, by decide⟩

/-- C7 (amended): only a token that does not BEGIN with letters followed by
digits fails, with a `ValueError` carrying the token verbatim; a valid prefix
with trailing characters is accepted (the trailing characters are ignored),
and the failure aborts further processing but not mutations already made. -/
theorem unprefixed_token_errors_verbatim (t : String)
    (h : hasCellPrefix t = false) :
    getCellCoordinates t = .error ("无效的单元格引用: " ++ t) := by
  unfold hasCellPrefix at h
  unfold getCellCoordinates
  simp only [spanLetters, spanDigits] at h ⊢
  have h' : ((t.data.takeWhile Char.isAlpha).isEmpty
      || ((t.data.dropWhile Char.isAlpha).takeWhile Char.isDigit).isEmpty) = true := by
    revert h
    cases (t.data.takeWhile Char.isAlpha).isEmpty <;>
      cases ((t.data.dropWhile Char.isAlpha).takeWhile Char.isDigit).isEmpty <;> simp
  rw [if_pos h']

/-- C7 (witness): the amended theorem at the unparseable token `"@@"`. -/
theorem unprefixed_token_errors_verbatim_witness :
    getCellCoordinates "@@" = .error ("无效的单元格引用: " ++ "@@") :=
  unprefixed_token_errors_verbatim "@@" (by decide)

/-- C8 (counterexample): the claimed equivalence does NOT extend to
`merge_cells`: it passes its range string to `range_boundaries` with no
full-width normalization, so `"A1:B2"` merges while the equivalent
`"A1：B2"` raises. -/
theorem merge_cells_fullwidth_separator_fails :
    mergeCellsSheet ⟨[], [], []⟩ "A1:B2" = .ok ⟨[], [⟨1, 1, 2, 2⟩], []⟩ ∧
    mergeCellsSheet ⟨[], [], []⟩ "A1：B2" = .error () := by
  refine ⟨by decide, by decide⟩

/-- C8 (amended): `parse_cell_range` (used by the formatting and content
operations) normalizes the full-width separators `，` and `：` before
tokenizing, so for EVERY input string, parsing the full-width-normalized form
gives the same range list as parsing the original; `merge_cells`, however,
performs no such normalization and fails on full-width separators. -/
theorem parse_cell_range_fullwidth_invariant (s : String) :
    parse_cell_range (normalizeFullwidthStr s) = parse_cell_range s := by
  unfold parse_cell_range normalizeFullwidthStr
  have : (String.mk (normalizeFW s.data)).data = normalizeFW s.data := rfl
  rw [this, normalizeFW_idem]

/-! ## Claim C9: merge/unmerge round-trip -/

theorem getCellValue_of_no_merged (s : Sheet) (c : Coord) (hm : s.merged = []) :
    getCellValue s c = cellsLookup s.cells c := by
  simp [getCellValue, isMergedNonAnchor, hm]

theorem fold_setSwallow_merged (cs : List Coord) (sh : Sheet) (v : Option Val) :
    (cs.foldl (fun sh c => setCellValueSwallow sh c v) sh).merged = sh.merged := by
  induction cs generalizing sh with
  | nil => rfl
  | cons d cs ih => rw [List.foldl_cons, ih, setCellValueSwallow_merged]

theorem fold_setSwallow_lookup_not_mem (cs : List Coord) (sh : Sheet) (v : Option Val)
    (c : Coord) (hc : c ∉ cs) :
    cellsLookup ((cs.foldl (fun sh c => setCellValueSwallow sh c v) sh)).cells c
      = cellsLookup sh.cells c := by
  induction cs generalizing sh with
  | nil => rfl
  | cons d cs ih =>
    rw [List.foldl_cons, ih _ (fun h => hc (List.mem_cons_of_mem d h)),
      setCellValueSwallow_lookup_other sh d c v (fun h => hc (h ▸ List.mem_cons_self d cs))]

theorem isMergedNonAnchor_congr_merged (s t : Sheet) (c : Coord)
    (h : s.merged = t.merged) : isMergedNonAnchor s c = isMergedNonAnchor t c := by
  unfold isMergedNonAnchor
  rw [h]

theorem fold_setSwallow_lookup_mem (cs : List Coord) (sh : Sheet) (v : Option Val)
    (c : Coord) (hmask : isMergedNonAnchor sh c = false) (hc : c ∈ cs) :
    cellsLookup ((cs.foldl (fun sh c => setCellValueSwallow sh c v) sh)).cells c = v := by
  induction cs generalizing sh with
  | nil => cases hc
  | cons d cs ih =>
    rw [List.foldl_cons]
    by_cases h : c ∈ cs
    · exact ih _ (by
        rw [isMergedNonAnchor_congr_merged _ sh c (setCellValueSwallow_merged sh d v)]
        exact hmask) h
    · have hcd : c = d := by
        rcases List.mem_cons.1 hc with h' | h'
        · exact h'
        · exact absurd h' h
      subst hcd
      rw [fold_setSwallow_lookup_not_mem cs _ v c h,
        setCellValueSwallow_of_not_masked sh c v hmask]
      exact cellsLookup_store_self sh.cells c v

/-- C9: merging rectangle `R` on a sheet with no merged regions and then
unmerging everything with the broadcast (`keep_value`) policy leaves every
member cell of `R` holding the pre-merge anchor value; unmerging with the
discard policy keeps the anchor value at the anchor and leaves every other
member cell empty. -/
theorem merge_unmerge_roundtrip (s : Sheet) (r : MRange) (hm : s.merged = []) :
    (∀ c : Coord, r.contains c = true →
      getCellValue (unmergeAllSheet (mergeRectOp s r) true) c = getCellValue s r.anchor) ∧
    getCellValue (unmergeAllSheet (mergeRectOp s r) false) r.anchor
      = getCellValue s r.anchor ∧
    (∀ c : Coord, r.contains c = true → c ≠ r.anchor →
      getCellValue (unmergeAllSheet (mergeRectOp s r) false) c = none) := by
  set v := getCellValue s r.anchor with hv
  have hs1 : mergeRectOp s r
      = { cells := cellsStore (s.cells.filter fun e => ¬(r.contains e.1 ∧ e.1 ≠ r.anchor))
            r.anchor v
          merged := [r]
          hiddenRows := s.hiddenRows } := by
    unfold mergeRectOp
    rw [← hv]
    rw [setCellValueSwallow_of_not_masked]
    · unfold mergeCellsRaw
      rw [hm]
      simp
    · unfold mergeCellsRaw
      rw [hm]
      simp [isMergedNonAnchor]
  set s1 := mergeRectOp s r with hs1def
  have hs1m : s1.merged = [r] := by rw [hs1]
  have hs1v : cellsLookup s1.cells r.anchor = v := by
    rw [hs1]
    exact cellsLookup_store_self _ r.anchor v
  have hs1read : getCellValue s1 r.anchor = v := by
    unfold getCellValue
    rw [if_neg]
    · exact hs1v
    · rw [hs1]
      simp [isMergedNonAnchor]
  have hunm : ∀ keep : Bool, unmergeAllSheet s1 keep
      = (if keep then
          r.memberCoords.foldl (fun sh c => setCellValueSwallow sh c v)
            (unmergeCellsRaw s1 r)
        else unmergeCellsRaw s1 r) := by
    intro keep
    unfold unmergeAllSheet
    rw [hs1m, List.foldl_cons, List.foldl_nil, hs1read]
  have hs2m : (unmergeCellsRaw s1 r).merged = [] := by
    rw [unmergeCellsRaw_merged, hs1m]
    simp
  refine ⟨?_, ?_, ?_⟩
  · intro c hc
    rw [hunm true, if_pos rfl, getCellValue_of_no_merged _ c
      (by rw [fold_setSwallow_merged]; exact hs2m)]
    exact fold_setSwallow_lookup_mem r.memberCoords _ v c
      (by rw [isMergedNonAnchor, hs2m]; rfl) ((MRange.mem_memberCoords r c).2 hc)
  · rw [hunm false, if_neg (by simp), getCellValue_of_no_merged _ r.anchor hs2m]
    rw [unmergeCellsRaw_lookup s1 r r.anchor, if_neg (by simp)]
    exact hs1v
  · intro c hc hca
    rw [hunm false, if_neg (by simp), getCellValue_of_no_merged _ c hs2m]
    rw [unmergeCellsRaw_lookup s1 r c, if_pos ⟨hc, hca⟩]

/-- C9 (witness): the round trip on a concrete sheet (`A1 = "X"`, junk in
`B2`) and rectangle `A1:B2`, checked at `B2` and at the anchor. -/
theorem merge_unmerge_roundtrip_witness :
    getCellValue (unmergeAllSheet (mergeRectOp ⟨[((1, 1), "X"), ((2, 2), "junk")], [], []⟩
        ⟨1, 1, 2, 2⟩) true) (2, 2)
      = getCellValue (⟨[((1, 1), "X"), ((2, 2), "junk")], [], []⟩ : Sheet) (1, 1) ∧
    getCellValue (unmergeAllSheet (mergeRectOp ⟨[((1, 1), "X"), ((2, 2), "junk")], [], []⟩
        ⟨1, 1, 2, 2⟩) false) (2, 2) = none := by
  have h := merge_unmerge_roundtrip ⟨[((1, 1), "X"), ((2, 2), "junk")], [], []⟩
    ⟨1, 1, 2, 2⟩ rfl
  exact ⟨h.1 (2, 2) (by decide), h.2.2 (2, 2) (by decide) (by decide)⟩

/-! ## Rebuild-step characterization -/

theorem rebuildOne_fires (rows : List Nat) (s : Sheet) (i : MergeInfo)
    (h : rebuildFires rows i) :
    rebuildOne rows s i
      = setCellValueSwallow (mergeCellsRaw s (rebuiltRect rows i))
          (rebuiltRect rows i).anchor i.value := by
  obtain ⟨h1, h2, h3⟩ := h
  unfold rebuildOne
  rw [if_neg (by intro hc; rw [h1] at hc; exact Bool.false_ne_true hc),
    if_neg (by push_neg; omega), if_neg (by push_neg; intro hh; omega),
    if_pos ⟨h2, by omega, h3⟩]

theorem rebuildOne_skips (rows : List Nat) (s : Sheet) (i : MergeInfo)
    (h : ¬ rebuildFires rows i) : rebuildOne rows s i = s := by
  unfold rebuildOne
  split_ifs with hc hv hs hf
  · rfl
  · rfl
  · rfl
  · refine absurd ⟨?_, hf.1, hf.2.2⟩ h
    cases hcc : rows.contains i.min_row
    · rfl
    · exact absurd hcc hc
  · rfl

/-! ## Single-region pipeline lemmas -/

theorem snapshotInfo_rect (sh : Sheet) (K : MRange) : (snapshotInfo sh K).rect = K := rfl

theorem merge_restore_value (s2 : Sheet) (B : MRange) (v : Option Val)
    (hm2 : s2.merged = []) :
    (setCellValueSwallow (mergeCellsRaw s2 B) B.anchor v).merged = [B] ∧
    getCellValue (setCellValueSwallow (mergeCellsRaw s2 B) B.anchor v) B.anchor = v := by
  have hmask : isMergedNonAnchor (mergeCellsRaw s2 B) B.anchor = false := by
    rw [isMergedNonAnchor, mergeCellsRaw_merged, hm2]
    simp
  have hset := setCellValueSwallow_of_not_masked (mergeCellsRaw s2 B) B.anchor v hmask
  constructor
  · rw [hset]
    show (mergeCellsRaw s2 B).merged = [B]
    rw [mergeCellsRaw_merged, hm2]
    rfl
  · rw [hset]
    unfold getCellValue
    rw [if_neg (by
      show ¬(isMergedNonAnchor _ B.anchor = true)
      rw [show isMergedNonAnchor { mergeCellsRaw s2 B with
            cells := cellsStore (mergeCellsRaw s2 B).cells B.anchor v } B.anchor
          = isMergedNonAnchor (mergeCellsRaw s2 B) B.anchor from rfl, hmask]
      simp)]
    exact cellsLookup_store_self _ B.anchor v

theorem unmerge_single (s : Sheet) (R : MRange) (hm : s.merged = [R]) :
    (unmergeCellsRaw s R).merged = [] ∧
    cellsLookup (unmergeCellsRaw s R).cells R.anchor = cellsLookup s.cells R.anchor := by
  constructor
  · rw [unmergeCellsRaw_merged, hm, List.erase_cons_head]
  · rw [unmergeCellsRaw_lookup, if_neg (by simp)]

theorem processOneMerged_single (s : Sheet) (R : MRange) (mode : MergeMode)
    (hm : s.merged = [R]) (hwf : R.wf) (hmode : mode ≠ .ignore) :
    (processOneMerged mode s R).merged = [] ∧
    cellsLookup (processOneMerged mode s R).cells R.anchor = cellsLookup s.cells R.anchor := by
  have hdisj : PairwiseDisjoint s := by
    rw [PairwiseDisjoint, hm]
    exact List.pairwise_singleton _ _
  have hmask0 : isMergedNonAnchor s R.anchor = false :=
    anchor_not_masked s R hdisj (by rw [hm]; exact List.mem_singleton_self R) hwf
  have hvread : getCellValue s R.anchor = cellsLookup s.cells R.anchor := by
    unfold getCellValue
    rw [if_neg (by rw [hmask0]; simp)]
  obtain ⟨hUm, hUv⟩ := unmerge_single s R hm
  have hUmask : isMergedNonAnchor (unmergeCellsRaw s R) R.anchor = false := by
    rw [isMergedNonAnchor, hUm]
    rfl
  cases mode with
  | ignore => exact absurd rfl hmode
  | unmerge_only =>
    have heq : processOneMerged .unmerge_only s R
        = setCellValueSwallow (unmergeCellsRaw s R) R.anchor (getCellValue s R.anchor) := rfl
    rw [heq]
    constructor
    · rw [setCellValueSwallow_merged, hUm]
    · rw [setCellValueSwallow_of_not_masked _ _ _ hUmask]
      show cellsLookup (cellsStore (unmergeCellsRaw s R).cells R.anchor _) R.anchor = _
      rw [cellsLookup_store_self, hvread]
  | unmerge_keep_value =>
    have heq : processOneMerged .unmerge_keep_value s R
        = (MRange.memberCoords R).foldl
            (fun sh c => setCellValueSwallow sh c (getCellValue s R.anchor))
            (unmergeCellsRaw s R) := rfl
    rw [heq]
    constructor
    · rw [fold_setSwallow_merged, hUm]
    · rw [fold_setSwallow_lookup_mem _ _ _ _ hUmask
        ((MRange.mem_memberCoords R R.anchor).2 (R.anchor_contains hwf)), hvread]

theorem band_lookup_newMin (sU : Sheet) (P N r1 c1 : Nat) (hP : 1 ≤ P)
    (hc : (rowsToDelete P N).contains r1 = false) :
    cellsLookup (deleteBandDesc sU (rowsToDelete P N)).cells
        ((newMinRow (rowsToDelete P N) r1).toNat, c1)
      = cellsLookup sU.cells (r1, c1) := by
  have hnot : ¬(P ≤ r1 ∧ r1 < P + N) := fun h =>
    Bool.false_ne_true (hc ▸ (rowsToDelete_contains P N r1).2 h)
  have hcount := rowsToDelete_countP_lt P N r1
  unfold newMinRow
  rcases Nat.lt_or_ge r1 P with h1 | h1
  · have hc0 : (rowsToDelete P N).countP (fun r => decide (r < r1)) = 0 := by omega
    rw [hc0]
    have : ((r1 : Int) - (0 : Nat)).toNat = r1 := by omega
    rw [this, deleteBand_shift, if_pos h1]
  · have h2 : P + N ≤ r1 := by omega
    have hcN : (rowsToDelete P N).countP (fun r => decide (r < r1)) = N := by omega
    rw [hcN]
    have : ((r1 : Int) - (N : Nat)).toNat = r1 - N := by omega
    rw [this, deleteBand_shift, if_neg (by omega),
      show r1 - N + N = r1 from by omega]

theorem filter_singleton_cases {α : Type} (p : α → Bool) (a : α) :
    [a].filter p = [a] ∨ [a].filter p = [] := by
  rw [List.filter_cons, List.filter_nil]
  by_cases h : p a = true
  · left
    rw [if_pos h]
  · right
    rw [if_neg h]

theorem intersectingOf_cases (s : Sheet) (R : MRange) (P N : Nat) (hm : s.merged = [R]) :
    intersectingOf s P N = [R] ∨ intersectingOf s P N = [] := by
  unfold intersectingOf mergedCellsInRange
  rw [hm]
  exact filter_singleton_cases _ R

theorem belowOf_cases (s : Sheet) (R : MRange) (P N : Nat) (hm : s.merged = [R]) :
    belowOf s P N = [R] ∨ belowOf s P N = [] := by
  unfold belowOf
  rw [hm]
  exact filter_singleton_cases _ R

theorem affected_single (s : Sheet) (R : MRange) (P N : Nat) (hm : s.merged = [R])
    (haff : R ∈ intersectingOf s P N ∨ R ∈ belowOf s P N) :
    (intersectingOf s P N ++ belowOf s P N).dedup = [R] := by
  rcases intersectingOf_cases s R P N hm with hi | hi <;>
    rcases belowOf_cases s R P N hm with hb | hb <;> rw [hi, hb]
  · show ([R] ++ [R]).dedup = [R]
    simp
  · simp
  · simp
  · rw [hi, hb] at haff
    simp at haff

theorem below_single (s : Sheet) (R : MRange) (P N : Nat) (hm : s.merged = [R])
    (hb : R ∈ belowOf s P N) : belowOf s P N = [R] := by
  rcases belowOf_cases s R P N hm with h | h
  · exact h
  · rw [h] at hb
    cases hb

theorem deleteRowsSheet_branch_nonignore (s : Sheet) (P N : Nat) (mode : MergeMode)
    (hmode : mode ≠ .ignore)
    (hne : (intersectingOf s P N ++ belowOf s P N).dedup ≠ []) :
    deleteRowsSheet s P N mode
      = runRebuild
          (processMergedCellsInRange s ((intersectingOf s P N ++ belowOf s P N).dedup) mode)
          ((belowOf s P N).map (snapshotInfo
            (processMergedCellsInRange s ((intersectingOf s P N ++ belowOf s P N).dedup)
              mode)))
          (rowsToDelete P N) := by
  simp only [deleteRowsSheet]
  rw [if_pos ⟨hne, hmode⟩]

theorem deleteRowsSheet_branch_ignore (s : Sheet) (P N : Nat)
    (hne : (intersectingOf s P N ++ belowOf s P N).dedup ≠ []) :
    deleteRowsSheet s P N .ignore
      = runRebuild s
          (((intersectingOf s P N ++ belowOf s P N).dedup).map (snapshotInfo s))
          (rowsToDelete P N) := by
  simp only [deleteRowsSheet]
  rw [if_neg (by rintro ⟨-, h⟩; exact h rfl), if_pos (by exact ⟨hne, trivial⟩)]

theorem runRebuild_cons (s : Sheet) (i0 : MergeInfo) (rest : List MergeInfo)
    (rows : List Nat) :
    runRebuild s (i0 :: rest) rows
      = (i0 :: rest).foldl (rebuildOne rows)
          (deleteBandDesc
            ((i0 :: rest).foldl
              (fun sh i => if i.rect ∈ sh.merged then unmergeCellsRaw sh i.rect else sh) s)
            rows) := by
  simp only [runRebuild]
  rw [if_neg (by simp)]

theorem rebuild_tail_single (sU : Sheet) (iR : MergeInfo) (rows : List Nat)
    (hUM : sU.merged = []) :
    (rebuildOne rows (deleteBandDesc sU rows) iR).merged
      = (if rebuildFires rows iR then [rebuiltRect rows iR] else []) ∧
    (rebuildFires rows iR →
      getCellValue (rebuildOne rows (deleteBandDesc sU rows) iR)
          (rebuiltRect rows iR).anchor
        = iR.value) := by
  by_cases hf : rebuildFires rows iR
  · rw [rebuildOne_fires _ _ _ hf]
    obtain ⟨hm', hv'⟩ := merge_restore_value (deleteBandDesc sU rows) (rebuiltRect rows iR)
      iR.value (by rw [deleteBandDesc_merged, hUM])
    exact ⟨by rw [if_pos hf]; exact hm', fun _ => hv'⟩
  · rw [rebuildOne_skips _ _ _ hf]
    refine ⟨?_, fun h => absurd h hf⟩
    rw [if_neg hf, deleteBandDesc_merged, hUM]

/-- C2 (amended): for a sheet whose merged region `R` is snapshotted by
`delete_rows` (under any policy), the region is recreated after the raw
deletion if and only if (a') its min row was not one of the deleted rows,
(b') the recomputed min row is ≥ 1, and (c') the recomputed rectangle still
spans MORE THAN ONE ROW (`new_min_row < new_max_row`) — a record whose row
span collapses to a single row is silently dropped even when it still spans
several columns; when it is recreated, it is recreated at the recomputed
coordinates with the snapshotted anchor value re-written at the new top-left
cell.  (A region spanning rows `[5,7]` with row 5 deleted is never recreated,
under any policy: condition (a') fails.) -/
theorem delete_rows_recreate_iff (s : Sheet) (R : MRange) (P N : Nat) (mode : MergeMode)
    (hm : s.merged = [R]) (hwf : R.wf)
    (haff : R ∈ intersectingOf s P N ∨ R ∈ belowOf s P N)
    (hsnap : mode = .ignore ∨ R ∈ belowOf s P N) :
    ((deleteRowsSheet s P N mode).merged
        = if rebuildFires (rowsToDelete P N) (snapshotInfo s R)
          then [rebuiltRect (rowsToDelete P N) (snapshotInfo s R)] else []) ∧
    (rebuildFires (rowsToDelete P N) (snapshotInfo s R) →
      getCellValue (deleteRowsSheet s P N mode)
          (rebuiltRect (rowsToDelete P N) (snapshotInfo s R)).anchor
        = getCellValue s R.anchor) := by
  have haffected := affected_single s R P N hm haff
  have hne : (intersectingOf s P N ++ belowOf s P N).dedup ≠ [] := by
    rw [haffected]
    simp
  by_cases hmode : mode = .ignore
  · subst hmode
    rw [deleteRowsSheet_branch_ignore s P N hne, haffected]
    have hmap : ([R].map (snapshotInfo s)) = [snapshotInfo s R] := rfl
    rw [hmap, runRebuild_cons]
    rw [show ([snapshotInfo s R].foldl
          (fun sh i => if i.rect ∈ sh.merged then unmergeCellsRaw sh i.rect else sh) s)
        = unmergeCellsRaw s R from by
      rw [List.foldl_cons, List.foldl_nil, snapshotInfo_rect,
        if_pos (by rw [hm]; exact List.mem_singleton_self R)]]
    rw [List.foldl_cons, List.foldl_nil]
    obtain ⟨hUM, _⟩ := unmerge_single s R hm
    exact rebuild_tail_single (unmergeCellsRaw s R) (snapshotInfo s R)
      (rowsToDelete P N) hUM
  · obtain hb := hsnap.resolve_left hmode
    have hbelow := below_single s R P N hm hb
    rw [deleteRowsSheet_branch_nonignore s P N mode hmode hne, haffected, hbelow]
    set s1 := processMergedCellsInRange s [R] mode with hs1
    have hs1fold : s1 = processOneMerged mode s R := by
      rw [hs1]
      unfold processMergedCellsInRange
      rw [if_neg hmode, List.foldl_cons, List.foldl_nil]
    have hsingle := processOneMerged_single s R mode hm hwf hmode
    rw [← hs1fold] at hsingle
    obtain ⟨hs1m, hs1v⟩ := hsingle
    have hdisj : PairwiseDisjoint s := by
      rw [PairwiseDisjoint, hm]
      exact List.pairwise_singleton _ _
    have hmask0 : isMergedNonAnchor s R.anchor = false :=
      anchor_not_masked s R hdisj (by rw [hm]; exact List.mem_singleton_self R) hwf
    have hsnapeq : snapshotInfo s1 R = snapshotInfo s R := by
      unfold snapshotInfo
      have : getCellValue s1 R.anchor = getCellValue s R.anchor := by
        unfold getCellValue
        rw [if_neg (by rw [isMergedNonAnchor, hs1m]; simp),
          if_neg (by rw [hmask0]; simp), hs1v]
      rw [this]
    have hmap : ([R].map (snapshotInfo s1)) = [snapshotInfo s R] := by
      rw [List.map_cons, List.map_nil, hsnapeq]
    rw [hmap, runRebuild_cons]
    rw [show ([snapshotInfo s R].foldl
          (fun sh i => if i.rect ∈ sh.merged then unmergeCellsRaw sh i.rect else sh) s1)
        = s1 from by
      rw [List.foldl_cons, List.foldl_nil, snapshotInfo_rect,
        if_neg (by rw [hs1m]; simp)]]
    rw [List.foldl_cons, List.foldl_nil]
    exact rebuild_tail_single s1 (snapshotInfo s R) (rowsToDelete P N) hs1m

/-- C2 (witness): the amended iff at a concrete instance: region `A5:B6`
(anchor value `"v"`), delete row 6 under the `ignore` policy — the record is
snapshotted, the recomputed rectangle is the one-row `A5:B5`, and the `iff`
correctly predicts that nothing is recreated. -/
theorem delete_rows_recreate_iff_witness :
    ((deleteRowsSheet ⟨[((5, 1), "v")], [⟨5, 1, 6, 2⟩], []⟩ 6 1 .ignore).merged
        = if rebuildFires (rowsToDelete 6 1)
              (snapshotInfo ⟨[((5, 1), "v")], [⟨5, 1, 6, 2⟩], []⟩ ⟨5, 1, 6, 2⟩)
          then [rebuiltRect (rowsToDelete 6 1)
              (snapshotInfo ⟨[((5, 1), "v")], [⟨5, 1, 6, 2⟩], []⟩ ⟨5, 1, 6, 2⟩)] else []) ∧
    ((deleteRowsSheet ⟨[((5, 1), "v")], [⟨5, 1, 6, 2⟩], []⟩ 6 1 .ignore).merged = []) := by
  have h := delete_rows_recreate_iff ⟨[((5, 1), "v")], [⟨5, 1, 6, 2⟩], []⟩ ⟨5, 1, 6, 2⟩ 6 1
    .ignore rfl (by constructor <;> simp) (Or.inl (by decide)) (Or.inl rfl)
  refine ⟨h.1, ?_⟩
  rw [h.1, if_neg (by decide)]

/-- C2 (counterexample): region `A5:B6` (rows 5-6, columns 1-2), deleting row
6 only.  None of the claim's three skip conditions holds — the min row 5 was
not deleted, the recomputed bounds `[5,5]` are valid, and the recomputed
rectangle `A5:B5` spans two cells, not one — yet under every policy the
region is NOT recreated: the code additionally requires
`new_min_row < new_max_row`. -/
theorem row_collapsed_region_not_recreated :
    (rowsToDelete 6 1).contains 5 = false ∧
    newMinRow (rowsToDelete 6 1) 5 = 5 ∧
    newMaxRow (rowsToDelete 6 1) 6 = 5 ∧
    (deleteRowsSheet ⟨[((5, 1), "v")], [⟨5, 1, 6, 2⟩], []⟩ 6 1 .ignore).merged = [] ∧
    (deleteRowsSheet ⟨[((5, 1), "v")], [⟨5, 1, 6, 2⟩], []⟩ 6 1 .unmerge_only).merged = [] ∧
    (deleteRowsSheet ⟨[((5, 1), "v")], [⟨5, 1, 6, 2⟩], []⟩ 6 1
        .unmerge_keep_value).merged = [] := by
  refine ⟨by decide, by decide, by decide, by decide, by decide, by decide⟩

/-- C3 (counterexample): merged region `A3:B4` (anchor `"x"`) intersecting the
deleted band (row 3), policy `ignore`.  The claim says the region is passed
through UNTOUCHED to the raw deletion primitive; the raw primitive alone
leaves the merged rectangle in place (first conjunct shows what pass-through
would produce), but `delete_rows` proactively unmerges it and ends with no
merged region at all. -/
theorem ignore_mode_unmerges_intersecting_region :
    (deleteBandDesc ⟨[((3, 1), "x")], [⟨3, 1, 4, 2⟩], []⟩ (rowsToDelete 3 1)).merged
      = [⟨3, 1, 4, 2⟩] ∧
    (deleteRowsSheet ⟨[((3, 1), "x")], [⟨3, 1, 4, 2⟩], []⟩ 3 1 .ignore).merged = [] := by
  refine ⟨by decide, by decide⟩

theorem rowsToDelete_contains_false (P N x : Nat) (h : x < P ∨ P + N ≤ x) :
    (rowsToDelete P N).contains x = false := by
  cases hc : (rowsToDelete P N).contains x
  · rfl
  · have := (rowsToDelete_contains P N x).1 hc
    omega

/-- C3 (amended): under the `ignore` policy, a region intersecting the
deleted band is NOT passed through untouched: it is snapshotted, unmerged,
and reconciled by the same shift rules as downstream regions — if its min row
lies above the band and the recomputed rectangle still spans more than one
row, it is recreated shrunk at the recomputed coordinates with its anchor
value restored (and downstream regions are still reconciled, as the claim's
second half says). -/
theorem ignore_mode_reconciles_intersecting_region (s : Sheet) (R : MRange) (P N : Nat)
    (hm : s.merged = [R]) (hwf : R.wf) (hi : R ∈ intersectingOf s P N)
    (h1 : R.min_row < P)
    (h2 : (R.min_row : Int) < newMaxRow (rowsToDelete P N) R.max_row) :
    (deleteRowsSheet s P N .ignore).merged
      = [⟨R.min_row, R.min_col, (newMaxRow (rowsToDelete P N) R.max_row).toNat,
          R.max_col⟩] ∧
    getCellValue (deleteRowsSheet s P N .ignore) (R.min_row, R.min_col)
      = getCellValue s R.anchor := by
  have haffected := affected_single s R P N hm (Or.inl hi)
  have hne : (intersectingOf s P N ++ belowOf s P N).dedup ≠ [] := by
    rw [haffected]
    simp
  have hc0 : (rowsToDelete P N).countP (fun r => decide (r < R.min_row)) = 0 := by
    rw [rowsToDelete_countP_lt]
    omega
  have hnmin : newMinRow (rowsToDelete P N) R.min_row = (R.min_row : Int) := by
    unfold newMinRow
    rw [hc0]
    omega
  have hfires : rebuildFires (rowsToDelete P N) (snapshotInfo s R) := by
    refine ⟨rowsToDelete_contains_false P N R.min_row (Or.inl h1), ?_, ?_⟩
    · show 1 ≤ newMinRow (rowsToDelete P N) R.min_row
      rw [hnmin]
      have := hwf.1
      omega
    · show newMinRow (rowsToDelete P N) R.min_row < newMaxRow (rowsToDelete P N) R.max_row
      rw [hnmin]
      exact h2
  have hrect : rebuiltRect (rowsToDelete P N) (snapshotInfo s R)
      = ⟨R.min_row, R.min_col, (newMaxRow (rowsToDelete P N) R.max_row).toNat,
          R.max_col⟩ := by
    unfold rebuiltRect
    show (⟨(newMinRow (rowsToDelete P N) R.min_row).toNat, R.min_col,
        (newMaxRow (rowsToDelete P N) R.max_row).toNat, R.max_col⟩ : MRange) = _
    rw [hnmin]
    simp
  have hanchor : (rebuiltRect (rowsToDelete P N) (snapshotInfo s R)).anchor
      = (R.min_row, R.min_col) := by
    rw [hrect]
    rfl
  rw [deleteRowsSheet_branch_ignore s P N hne, haffected]
  have hmap : ([R].map (snapshotInfo s)) = [snapshotInfo s R] := rfl
  rw [hmap, runRebuild_cons]
  rw [show ([snapshotInfo s R].foldl
        (fun sh i => if i.rect ∈ sh.merged then unmergeCellsRaw sh i.rect else sh) s)
      = unmergeCellsRaw s R from by
    rw [List.foldl_cons, List.foldl_nil, snapshotInfo_rect,
      if_pos (by rw [hm]; exact List.mem_singleton_self R)]]
  rw [List.foldl_cons, List.foldl_nil]
  obtain ⟨hUM, _⟩ := unmerge_single s R hm
  obtain ⟨htm, htv⟩ := rebuild_tail_single (unmergeCellsRaw s R) (snapshotInfo s R)
    (rowsToDelete P N) hUM
  refine ⟨?_, ?_⟩
  · rw [htm, if_pos hfires, hrect]
  · have := htv hfires
    rw [hanchor] at this
    exact this

/-- C3 (witness): the amended theorem on region `A3:B8` (anchor `"x"`) with
band rows 4-5 under `ignore`: the region is reconciled to `A3:B6` and keeps
its anchor value. -/
theorem ignore_mode_reconciles_intersecting_region_witness :
    (deleteRowsSheet ⟨[((3, 1), "x")], [⟨3, 1, 8, 2⟩], []⟩ 4 2 .ignore).merged
      = [⟨3, 1, (newMaxRow (rowsToDelete 4 2) 8).toNat, 2⟩] ∧
    getCellValue (deleteRowsSheet ⟨[((3, 1), "x")], [⟨3, 1, 8, 2⟩], []⟩ 4 2 .ignore) (3, 1)
      = getCellValue (⟨[((3, 1), "x")], [⟨3, 1, 8, 2⟩], []⟩ : Sheet) (3, 1) :=
  ignore_mode_reconciles_intersecting_region ⟨[((3, 1), "x")], [⟨3, 1, 8, 2⟩], []⟩
    ⟨3, 1, 8, 2⟩ 4 2 rfl (by refine ⟨by decide, by decide, by decide, by decide⟩)
    (by decide) (by decide) (by decide)

/-! ## Multi-region pipeline lemmas (towards C1) -/

theorem mem_foldl_erase (rs : List MRange) (m : List MRange) (K : MRange) (hnd : m.Nodup) :
    K ∈ rs.foldl (fun m r => m.erase r) m ↔ K ∈ m ∧ K ∉ rs := by
  induction rs generalizing m with
  | nil => simp
  | cons r rs ih =>
    rw [List.foldl_cons, ih (m.erase r) (hnd.erase r)]
    rw [List.Nodup.mem_erase_iff hnd]
    simp only [List.mem_cons]
    constructor
    · rintro ⟨⟨h1, h2⟩, h3⟩
      exact ⟨h2, by rintro (rfl | h); exact h1 rfl; exact h3 h⟩
    · rintro ⟨h1, h2⟩
      exact ⟨⟨fun hh => h2 (Or.inl hh), h1⟩, fun hh => h2 (Or.inr hh)⟩

theorem isMergedNonAnchor_false_of_subset (s t : Sheet) (c : Coord)
    (hsub : ∀ K ∈ t.merged, K ∈ s.merged) (h : isMergedNonAnchor s c = false) :
    isMergedNonAnchor t c = false := by
  by_contra hh
  rw [Bool.not_eq_false, isMergedNonAnchor_iff] at hh
  obtain ⟨K, hK, h1, h2⟩ := hh
  have : isMergedNonAnchor s c = true := (isMergedNonAnchor_iff s c).2 ⟨K, hsub K hK, h1, h2⟩
  rw [h] at this
  exact Bool.false_ne_true this

theorem processOneMerged_merged (mode : MergeMode) (sh : Sheet) (K : MRange)
    (hmode : mode ≠ .ignore) :
    (processOneMerged mode sh K).merged = sh.merged.erase K := by
  cases mode with
  | ignore => exact absurd rfl hmode
  | unmerge_only =>
    show (setCellValueSwallow (unmergeCellsRaw sh K) K.anchor
        (getCellValue sh K.anchor)).merged = _
    rw [setCellValueSwallow_merged, unmergeCellsRaw_merged]
  | unmerge_keep_value =>
    show ((K.memberCoords.foldl (fun s c => setCellValueSwallow s c (getCellValue sh K.anchor))
        (unmergeCellsRaw sh K))).merged = _
    rw [fold_setSwallow_merged, unmergeCellsRaw_merged]

/-- One `_process_merged_cells_in_range` step leaves the raw value at the
anchor of a well-formed region `R` unchanged: processing `R` itself
re-establishes the anchor value it read, and processing a disjoint region
never touches `R`'s anchor. -/
theorem processOneMerged_lookup_anchor (mode : MergeMode) (sh : Sheet) (K R : MRange)
    (hmode : mode ≠ .ignore) (hwfR : R.wf) (hwfK : K.wf)
    (hKR : K = R ∨ K.Disjoint R)
    (hmask : isMergedNonAnchor sh R.anchor = false) :
    cellsLookup (processOneMerged mode sh K).cells R.anchor
      = cellsLookup sh.cells R.anchor := by
  have hread : getCellValue sh R.anchor = cellsLookup sh.cells R.anchor := by
    unfold getCellValue
    rw [if_neg (by rw [hmask]; simp)]
  have hmaskU : isMergedNonAnchor (unmergeCellsRaw sh K) R.anchor = false :=
    isMergedNonAnchor_false_of_subset sh _ R.anchor
      (by intro x hx; rw [unmergeCellsRaw_merged] at hx; exact List.mem_of_mem_erase hx)
      hmask
  rcases hKR with rfl | hdisj
  · have hUv : cellsLookup (unmergeCellsRaw sh K).cells K.anchor
        = cellsLookup sh.cells K.anchor := by
      rw [unmergeCellsRaw_lookup, if_neg (by simp)]
    cases mode with
    | ignore => exact absurd rfl hmode
    | unmerge_only =>
      show cellsLookup (setCellValueSwallow (unmergeCellsRaw sh K) K.anchor
          (getCellValue sh K.anchor)).cells K.anchor = _
      rw [setCellValueSwallow_of_not_masked _ _ _ hmaskU]
      show cellsLookup (cellsStore (unmergeCellsRaw sh K).cells K.anchor _) K.anchor = _
      rw [cellsLookup_store_self, hread]
    | unmerge_keep_value =>
      show cellsLookup ((K.memberCoords.foldl
          (fun s c => setCellValueSwallow s c (getCellValue sh K.anchor))
          (unmergeCellsRaw sh K))).cells K.anchor = _
      rw [fold_setSwallow_lookup_mem _ _ _ _ hmaskU
        ((MRange.mem_memberCoords K K.anchor).2 (K.anchor_contains hwfK)), hread]
  · have hnc : K.contains R.anchor = false := by
      cases hc : K.contains R.anchor
      · rfl
      · exact absurd ⟨hc, R.anchor_contains hwfR⟩ (hdisj R.anchor)
    have hUv : cellsLookup (unmergeCellsRaw sh K).cells R.anchor
        = cellsLookup sh.cells R.anchor := by
      rw [unmergeCellsRaw_lookup, if_neg (by rw [hnc]; simp)]
    have hne : K.anchor ≠ R.anchor := by
      intro h
      have := K.anchor_contains hwfK
      rw [h, hnc] at this
      exact Bool.false_ne_true this
    cases mode with
    | ignore => exact absurd rfl hmode
    | unmerge_only =>
      show cellsLookup (setCellValueSwallow (unmergeCellsRaw sh K) K.anchor
          (getCellValue sh K.anchor)).cells R.anchor = _
      rw [setCellValueSwallow_lookup_other _ _ _ _ (Ne.symm hne), hUv]
    | unmerge_keep_value =>
      show cellsLookup ((K.memberCoords.foldl
          (fun s c => setCellValueSwallow s c (getCellValue sh K.anchor))
          (unmergeCellsRaw sh K))).cells R.anchor = _
      rw [fold_setSwallow_lookup_not_mem _ _ _ _ (by
          rw [MRange.mem_memberCoords, hnc]
          exact Bool.false_ne_true), hUv]

/-- `_process_merged_cells_in_range` over a region list: the merged set loses
exactly the processed regions, and the raw value at the anchor of a
well-formed region `R` disjoint from (or equal to) every processed region is
unchanged, the anchor staying unmasked. -/
theorem processMerged_fold (mode : MergeMode) (regions : List MRange) (s : Sheet)
    (R : MRange) (hmode : mode ≠ .ignore) (hwfR : R.wf)
    (hwfAll : ∀ K ∈ regions, K.wf)
    (hdisj : ∀ K ∈ regions, K = R ∨ K.Disjoint R)
    (hmask : isMergedNonAnchor s R.anchor = false) :
    (regions.foldl (processOneMerged mode) s).merged
        = regions.foldl (fun m r => m.erase r) s.merged ∧
    cellsLookup (regions.foldl (processOneMerged mode) s).cells R.anchor
        = cellsLookup s.cells R.anchor ∧
    isMergedNonAnchor (regions.foldl (processOneMerged mode) s) R.anchor = false := by
  induction regions generalizing s with
  | nil => exact ⟨rfl, rfl, hmask⟩
  | cons K regions ih =>
    rw [List.foldl_cons, List.foldl_cons]
    have hmask1 : isMergedNonAnchor (processOneMerged mode s K) R.anchor = false :=
      isMergedNonAnchor_false_of_subset s _ R.anchor
        (by
          intro x hx
          rw [processOneMerged_merged mode s K hmode] at hx
          exact List.mem_of_mem_erase hx)
        hmask
    obtain ⟨h1, h2, h3⟩ := ih (processOneMerged mode s K)
      (fun x hx => hwfAll x (List.mem_cons_of_mem K hx))
      (fun x hx => hdisj x (List.mem_cons_of_mem K hx)) hmask1
    refine ⟨?_, ?_, h3⟩
    · rw [h1, processOneMerged_merged mode s K hmode]
    · rw [h2, processOneMerged_lookup_anchor mode s K R hmode hwfR
        (hwfAll K (List.mem_cons_self K regions)) (hdisj K (List.mem_cons_self K regions))
        hmask]

/-- Step 1 of `runRebuild` (unmerge whatever of the snapshot is still
merged): same characterization as `processMerged_fold`. -/
theorem unmergeStep_fold (infos : List MergeInfo) (s : Sheet) (R : MRange)
    (hwfR : R.wf) (hwfAll : ∀ i ∈ infos, i.rect.wf)
    (hdisj : ∀ i ∈ infos, i.rect = R ∨ i.rect.Disjoint R)
    (hmask : isMergedNonAnchor s R.anchor = false) :
    (infos.foldl (fun sh i => if i.rect ∈ sh.merged then unmergeCellsRaw sh i.rect else sh)
        s).merged
      = infos.foldl (fun m i => m.erase i.rect) s.merged ∧
    cellsLookup (infos.foldl
        (fun sh i => if i.rect ∈ sh.merged then unmergeCellsRaw sh i.rect else sh) s).cells
        R.anchor
      = cellsLookup s.cells R.anchor ∧
    isMergedNonAnchor (infos.foldl
        (fun sh i => if i.rect ∈ sh.merged then unmergeCellsRaw sh i.rect else sh) s)
        R.anchor = false := by
  induction infos generalizing s with
  | nil => exact ⟨rfl, rfl, hmask⟩
  | cons i infos ih =>
    rw [List.foldl_cons, List.foldl_cons]
    have hstep : ∀ t : Sheet,
        (if i.rect ∈ t.merged then unmergeCellsRaw t i.rect else t).merged
          = t.merged.erase i.rect ∨
        ((if i.rect ∈ t.merged then unmergeCellsRaw t i.rect else t) = t
          ∧ t.merged.erase i.rect = t.merged) := by
      intro t
      by_cases hmem : i.rect ∈ t.merged
      · rw [if_pos hmem, unmergeCellsRaw_merged]
        exact Or.inl rfl
      · rw [if_neg hmem]
        exact Or.inr ⟨rfl, List.erase_of_not_mem hmem⟩
    have hmergedstep :
        (if i.rect ∈ s.merged then unmergeCellsRaw s i.rect else s).merged
          = s.merged.erase i.rect := by
      rcases hstep s with h | ⟨h1, h2⟩
      · exact h
      · rw [h1, h2]
    have hmask1 : isMergedNonAnchor
        (if i.rect ∈ s.merged then unmergeCellsRaw s i.rect else s) R.anchor = false :=
      isMergedNonAnchor_false_of_subset s _ R.anchor
        (by
          intro x hx
          rw [hmergedstep] at hx
          exact List.mem_of_mem_erase hx)
        hmask
    obtain ⟨h1, h2, h3⟩ := ih _ (fun x hx => hwfAll x (List.mem_cons_of_mem i hx))
      (fun x hx => hdisj x (List.mem_cons_of_mem i hx)) hmask1
    refine ⟨by rw [h1, hmergedstep], ?_, h3⟩
    rw [h2]
    by_cases hmem : i.rect ∈ s.merged
    · rw [if_pos hmem]
      rcases hdisj i (List.mem_cons_self i infos) with heq | hdisji
      · rw [heq, unmergeCellsRaw_lookup, if_neg (by simp)]
      · have hnc : i.rect.contains R.anchor = false := by
          cases hc : i.rect.contains R.anchor
          · rfl
          · exact absurd ⟨hc, R.anchor_contains hwfR⟩ (hdisji R.anchor)
        rw [unmergeCellsRaw_lookup, if_neg (by rw [hnc]; simp)]
    · rw [if_neg hmem]

/-- Two disjoint well-formed rectangles are separated along an axis. -/
theorem disjoint_wf_intervals (K R : MRange) (hwfK : K.wf) (hwfR : R.wf)
    (hd : K.Disjoint R) :
    K.max_row < R.min_row ∨ R.max_row < K.min_row ∨
    K.max_col < R.min_col ∨ R.max_col < K.min_col := by
  by_contra h
  push_neg at h
  obtain ⟨h1, h2, h3, h4⟩ := h
  refine hd (max K.min_row R.min_row, max K.min_col R.min_col) ⟨?_, ?_⟩
  · rw [MRange.contains_iff]
    obtain ⟨_, hk2, _, hk4⟩ := hwfK
    constructor
    · omega
    · refine ⟨by omega, by omega, by omega⟩
  · rw [MRange.contains_iff]
    obtain ⟨_, hr2, _, hr4⟩ := hwfR
    refine ⟨by omega, by omega, by omega, by omega⟩

theorem rebuild_fold_mem_mono (rows : List Nat) (infos : List MergeInfo) (s : Sheet)
    (K : MRange) (h : K ∈ s.merged) :
    K ∈ (infos.foldl (rebuildOne rows) s).merged := by
  induction infos generalizing s with
  | nil => exact h
  | cons i infos ih =>
    rw [List.foldl_cons]
    refine ih _ ?_
    by_cases hf : rebuildFires rows i
    · rw [rebuildOne_fires _ _ _ hf, setCellValueSwallow_merged, mergeCellsRaw_merged]
      exact List.mem_append_left _ h
    · rw [rebuildOne_skips _ _ _ hf]
      exact h

theorem rebuild_fold_mem_origin (rows : List Nat) (infos : List MergeInfo) (s : Sheet)
    (K : MRange) (h : K ∈ (infos.foldl (rebuildOne rows) s).merged) :
    K ∈ s.merged ∨ ∃ i ∈ infos, rebuildFires rows i ∧ K = rebuiltRect rows i := by
  induction infos generalizing s with
  | nil => exact Or.inl h
  | cons i infos ih =>
    rw [List.foldl_cons] at h
    rcases ih _ h with h' | ⟨j, hj, hjf, hjr⟩
    · by_cases hf : rebuildFires rows i
      · rw [rebuildOne_fires _ _ _ hf, setCellValueSwallow_merged,
          mergeCellsRaw_merged] at h'
        rcases List.mem_append.1 h' with h'' | h''
        · exact Or.inl h''
        · exact Or.inr ⟨i, List.mem_cons_self i infos, hf, by simpa using h''⟩
      · rw [rebuildOne_skips _ _ _ hf] at h'
        exact Or.inl h'
    · exact Or.inr ⟨j, List.mem_cons_of_mem i hj, hjf, hjr⟩

/-- The rebuild fold never touches the raw value at a coordinate that no
record's rebuilt rectangle covers. -/
theorem rebuild_fold_lookup_preserved (rows : List Nat) (infos : List MergeInfo)
    (s : Sheet) (a : Coord)
    (hsafe : ∀ i ∈ infos, rebuildFires rows i →
      (rebuiltRect rows i).wf ∧ (rebuiltRect rows i).contains a = false) :
    cellsLookup ((infos.foldl (rebuildOne rows) s)).cells a = cellsLookup s.cells a := by
  induction infos generalizing s with
  | nil => rfl
  | cons i infos ih =>
    rw [List.foldl_cons,
      ih _ (fun j hj => hsafe j (List.mem_cons_of_mem i hj))]
    by_cases hf : rebuildFires rows i
    · obtain ⟨hwfB, hncB⟩ := hsafe i (List.mem_cons_self i infos) hf
      have hanchne : (rebuiltRect rows i).anchor ≠ a := by
        intro hh
        have := (rebuiltRect rows i).anchor_contains hwfB
        rw [hh, hncB] at this
        exact Bool.false_ne_true this
      rw [rebuildOne_fires _ _ _ hf,
        setCellValueSwallow_lookup_other _ _ _ _ (Ne.symm hanchne),
        mergeCellsRaw_lookup, if_neg (by rw [hncB]; simp)]
    · rw [rebuildOne_skips _ _ _ hf]

theorem countP_lt_eq_N (P N x : Nat) (h : P + N ≤ x) :
    (rowsToDelete P N).countP (fun r => decide (r < x)) = N := by
  rw [rowsToDelete_countP_lt]
  omega

theorem countP_le_eq_N (P N x : Nat) (h : P + N ≤ x + 1) :
    (rowsToDelete P N).countP (fun r => decide (r ≤ x)) = N := by
  rw [rowsToDelete_countP_le]
  omega

/-- A record snapshotted from a region strictly below the deleted band fires
and is rebuilt at the uniformly shifted rectangle. -/
theorem below_record_fires (P N : Nat) (K : MRange) (sh : Sheet) (hP : 1 ≤ P)
    (hbelow : P + N ≤ K.min_row) (hrowspan : K.min_row < K.max_row) :
    rebuildFires (rowsToDelete P N) (snapshotInfo sh K) ∧
    rebuiltRect (rowsToDelete P N) (snapshotInfo sh K)
      = ⟨K.min_row - N, K.min_col, K.max_row - N, K.max_col⟩ := by
  have hlt := countP_lt_eq_N P N K.min_row hbelow
  have hle := countP_le_eq_N P N K.max_row (by omega)
  have hnmin : newMinRow (rowsToDelete P N) (snapshotInfo sh K).min_row
      = (K.min_row : Int) - N := by
    show newMinRow (rowsToDelete P N) K.min_row = _
    unfold newMinRow
    rw [hlt]
  have hnmax : newMaxRow (rowsToDelete P N) (snapshotInfo sh K).max_row
      = (K.max_row : Int) - N := by
    show newMaxRow (rowsToDelete P N) K.max_row = _
    unfold newMaxRow
    rw [hle]
  refine ⟨⟨?_, ?_, ?_⟩, ?_⟩
  · exact rowsToDelete_contains_false P N _ (Or.inr hbelow)
  · rw [hnmin]
    omega
  · rw [hnmin, hnmax]
    omega
  · unfold rebuiltRect
    rw [hnmin, hnmax]
    show (⟨((K.min_row : Int) - N).toNat, K.min_col, ((K.max_row : Int) - N).toNat,
        K.max_col⟩ : MRange) = _
    have e1 : ((K.min_row : Int) - N).toNat = K.min_row - N := by omega
    have e2 : ((K.max_row : Int) - N).toNat = K.max_row - N := by omega
    rw [e1, e2]

/-- The SafeInfo fact: a record snapshotted from a well-formed region `K`
disjoint from `R` (with `R` strictly below the band), when it fires, is
rebuilt at a well-formed rectangle that avoids `R`'s shifted anchor. -/
theorem safe_record (P N : Nat) (K R : MRange) (sh : Sheet) (hP : 1 ≤ P)
    (hwfK : K.wf) (hwfR : R.wf) (hd : K.Disjoint R)
    (hbelow : P + N ≤ R.min_row)
    (hf : rebuildFires (rowsToDelete P N) (snapshotInfo sh K)) :
    (rebuiltRect (rowsToDelete P N) (snapshotInfo sh K)).wf ∧
    (rebuiltRect (rowsToDelete P N) (snapshotInfo sh K)).contains
        (R.min_row - N, R.min_col) = false := by
  obtain ⟨hc, hmin1, hminmax⟩ := hf
  have hc' : (rowsToDelete P N).contains K.min_row = false := hc
  have hnotband : ¬(P ≤ K.min_row ∧ K.min_row < P + N) := by
    intro hh
    rw [(rowsToDelete_contains P N K.min_row).2 hh] at hc'
    exact Bool.noConfusion hc'
  have hmin1' : (1 : Int) ≤ (K.min_row : Int)
      - ((rowsToDelete P N).countP (fun r => decide (r < K.min_row)) : Nat) := hmin1
  have hminmax' : (K.min_row : Int)
        - ((rowsToDelete P N).countP (fun r => decide (r < K.min_row)) : Nat)
      < (K.max_row : Int)
        - ((rowsToDelete P N).countP (fun r => decide (r ≤ K.max_row)) : Nat) := hminmax
  rw [rowsToDelete_countP_lt] at hmin1' hminmax'
  rw [rowsToDelete_countP_le] at hminmax'
  have hBshape : rebuiltRect (rowsToDelete P N) (snapshotInfo sh K)
      = ⟨((K.min_row : Int) - (min (K.min_row - P) N : Nat)).toNat, K.min_col,
          ((K.max_row : Int) - (min (K.max_row + 1 - P) N : Nat)).toNat, K.max_col⟩ := by
    show (⟨((K.min_row : Int)
        - ((rowsToDelete P N).countP (fun r => decide (r < K.min_row)) : Nat)).toNat,
        K.min_col,
        ((K.max_row : Int)
        - ((rowsToDelete P N).countP (fun r => decide (r ≤ K.max_row)) : Nat)).toNat,
        K.max_col⟩ : MRange) = _
    rw [rowsToDelete_countP_lt, rowsToDelete_countP_le]
  rw [hBshape]
  have hwfB : (⟨((K.min_row : Int) - (min (K.min_row - P) N : Nat)).toNat, K.min_col,
      ((K.max_row : Int) - (min (K.max_row + 1 - P) N : Nat)).toNat, K.max_col⟩
        : MRange).wf := by
    refine ⟨?_, ?_, hwfK.2.2.1, hwfK.2.2.2⟩
    · show 1 ≤ ((K.min_row : Int) - (min (K.min_row - P) N : Nat)).toNat
      omega
    · show ((K.min_row : Int) - (min (K.min_row - P) N : Nat)).toNat
        ≤ ((K.max_row : Int) - (min (K.max_row + 1 - P) N : Nat)).toNat
      omega
  refine ⟨hwfB, ?_⟩
  have hiff : (⟨((K.min_row : Int) - (min (K.min_row - P) N : Nat)).toNat, K.min_col,
      ((K.max_row : Int) - (min (K.max_row + 1 - P) N : Nat)).toNat, K.max_col⟩
        : MRange).contains (R.min_row - N, R.min_col) = true ↔
      ((K.min_row : Int) - (min (K.min_row - P) N : Nat)).toNat ≤ R.min_row - N ∧
      R.min_row - N ≤ ((K.max_row : Int) - (min (K.max_row + 1 - P) N : Nat)).toNat ∧
      K.min_col ≤ R.min_col ∧ R.min_col ≤ K.max_col :=
    MRange.contains_iff _ _
  cases hcc : (⟨((K.min_row : Int) - (min (K.min_row - P) N : Nat)).toNat, K.min_col,
      ((K.max_row : Int) - (min (K.max_row + 1 - P) N : Nat)).toNat, K.max_col⟩
        : MRange).contains (R.min_row - N, R.min_col)
  · rfl
  · exfalso
    obtain ⟨hb1, hb2, hb3, hb4⟩ := hiff.1 hcc
    clear hmin1 hminmax hc hc' hiff hcc hwfB hBshape
    obtain ⟨h1K, h2K, h3K, h4K⟩ := hwfK
    obtain ⟨h1R, h2R, h3R, h4R⟩ := hwfR
    rcases disjoint_wf_intervals K R ⟨h1K, h2K, h3K, h4K⟩ ⟨h1R, h2R, h3R, h4R⟩ hd
      with hsep | hsep | hsep | hsep
    · omega
    · omega
    · omega
    · omega

theorem getCellValue_eq_raw (s : Sheet) (c : Coord) (h : isMergedNonAnchor s c = false) :
    getCellValue s c = cellsLookup s.cells c := by
  unfold getCellValue
  rw [if_neg (by rw [h]; simp)]

theorem nodup_of_pairwiseDisjoint (s : Sheet) (hd : PairwiseDisjoint s)
    (hwfAll : ∀ K ∈ s.merged, K.wf) : s.merged.Nodup := by
  refine List.Pairwise.imp_of_mem ?_ hd
  intro a b ha hb hab
  intro heq
  subst heq
  exact hab a.anchor ⟨a.anchor_contains (hwfAll a ha), a.anchor_contains (hwfAll a ha)⟩

theorem nodup_foldl_erase (rs : List MRange) (m : List MRange) (hnd : m.Nodup) :
    (rs.foldl (fun m r => m.erase r) m).Nodup := by
  induction rs generalizing m with
  | nil => exact hnd
  | cons r rs ih => exact ih _ (hnd.erase r)

theorem runRebuild_nonempty (s : Sheet) (info : List MergeInfo) (rows : List Nat)
    (h : info ≠ []) :
    runRebuild s info rows
      = info.foldl (rebuildOne rows)
          (deleteBandDesc
            (info.foldl
              (fun sh i => if i.rect ∈ sh.merged then unmergeCellsRaw sh i.rect else sh) s)
            rows) := by
  simp only [runRebuild]
  rw [if_neg h]

theorem foldr_min_le_init (l : List Nat) (a : Nat) : l.foldr min a ≤ a := by
  induction l with
  | nil => exact Nat.le_refl a
  | cons x l ih => exact le_trans (min_le_right x (l.foldr min a)) ih

theorem foldr_min_le_mem (l : List Nat) (a x : Nat) (h : x ∈ l) : l.foldr min a ≤ x := by
  induction l with
  | nil => cases h
  | cons y l ih =>
    rcases List.mem_cons.1 h with rfl | h'
    · exact min_le_left x _
    · exact le_trans (min_le_right y _) (ih h')

theorem le_foldr_max_init (l : List Nat) (a : Nat) : a ≤ l.foldr max a := by
  induction l with
  | nil => exact Nat.le_refl a
  | cons x l ih => exact le_trans ih (le_max_right x (l.foldr max a))

theorem le_foldr_max_mem (l : List Nat) (a x : Nat) (h : x ∈ l) : x ≤ l.foldr max a := by
  induction l with
  | nil => cases h
  | cons y l ih =>
    rcases List.mem_cons.1 h with rfl | h'
    · exact le_max_left x _
    · exact le_trans (ih h') (le_max_right y _)

/-- Every non-empty coordinate lies within the data range's column bounds. -/
theorem dataRange_col_bounds (s : Sheet) (c : Coord) (hc : c ∈ dataCoords s) :
    (dataRange s).2.2.1 ≤ c.2 ∧ c.2 ≤ (dataRange s).2.2.2 := by
  unfold dataRange
  rcases hdc : dataCoords s with _ | ⟨c0, cs⟩
  · rw [hdc] at hc
    cases hc
  · rw [hdc] at hc
    rcases List.mem_cons.1 hc with rfl | hmem
    · exact ⟨foldr_min_le_init _ _, le_foldr_max_init _ _⟩
    · exact ⟨foldr_min_le_mem _ _ _ (List.mem_map_of_mem _ hmem),
        le_foldr_max_mem _ _ _ (List.mem_map_of_mem _ hmem)⟩

theorem mem_dataCoords_of_isSome (s : Sheet) (c : Coord)
    (h : (getCellValue s c).isSome = true) : c ∈ dataCoords s := by
  unfold dataCoords
  rw [List.mem_filter]
  refine ⟨?_, h⟩
  have hl : (cellsLookup s.cells c).isSome = true := by
    unfold getCellValue at h
    by_cases hm : isMergedNonAnchor s c = true
    · rw [if_pos hm] at h
      simp at h
    · rwa [if_neg hm] at h
  unfold cellsLookup at hl
  cases hf : s.cells.find? (fun e => e.1 = c) with
  | none =>
    rw [hf] at hl
    simp at hl
  | some e =>
    have hmem := List.mem_of_find?_eq_some hf
    have hpred : e.1 = c := by simpa using List.find?_some hf
    rw [← hpred]
    exact List.mem_map_of_mem _ hmem

/-- The common tail of the deletion pipeline for C1: starting from the
post-unmerge state `sA` (whose surviving merged regions are neither
band-intersecting nor below the band), deleting the band and rebuilding the
records — with `R`'s record somewhere in the list and every other record
rebuilt (if at all) away from `R`'s shifted anchor — recreates `R` at the
uniformly shifted rectangle with its anchor value restored. -/
theorem rebuild_phase_main (s sA σ : Sheet) (R : MRange) (P N : Nat)
    (pre post info : List MergeInfo)
    (hinfo : info = pre ++ snapshotInfo σ R :: post)
    (hP : 1 ≤ P) (hwfR : R.wf)
    (hbefore : P + N ≤ R.min_row) (hrowspan : R.min_row < R.max_row)
    (hAmem : ∀ K ∈ sA.merged,
      K ∈ s.merged ∧ K ∉ intersectingOf s P N ∧ K ∉ belowOf s P N)
    (hAval : (snapshotInfo σ R).value = getCellValue s R.anchor)
    (hsafe : ∀ i ∈ pre ++ post, rebuildFires (rowsToDelete P N) i →
      (rebuiltRect (rowsToDelete P N) i).wf ∧
      (rebuiltRect (rowsToDelete P N) i).contains (R.min_row - N, R.min_col) = false) :
    ((⟨R.min_row - N, R.min_col, R.max_row - N, R.max_col⟩ : MRange)
        ∈ (info.foldl (rebuildOne (rowsToDelete P N))
            (deleteBandDesc sA (rowsToDelete P N))).merged) ∧
    getCellValue (info.foldl (rebuildOne (rowsToDelete P N))
        (deleteBandDesc sA (rowsToDelete P N))) (R.min_row - N, R.min_col)
      = getCellValue s R.anchor := by
  subst hinfo
  obtain ⟨hfiresR, hrectR⟩ := below_record_fires P N R σ hP hbefore hrowspan
  have hwfR' : (⟨R.min_row - N, R.min_col, R.max_row - N, R.max_col⟩ : MRange).wf := by
    obtain ⟨w1, w2, w3, w4⟩ := hwfR
    refine ⟨?_, ?_, w3, w4⟩
    · show 1 ≤ R.min_row - N
      omega
    · show R.min_row - N ≤ R.max_row - N
      omega
  have haR' : (⟨R.min_row - N, R.min_col, R.max_row - N, R.max_col⟩ : MRange).contains
      (R.min_row - N, R.min_col) = true := MRange.anchor_contains _ hwfR'
  rw [List.foldl_append, List.foldl_cons]
  rw [rebuildOne_fires _ _ _ hfiresR, hrectR]
  set rows := rowsToDelete P N with hrows
  set s2 := deleteBandDesc sA rows with hs2
  set s3 := pre.foldl (rebuildOne rows) s2 with hs3
  set s4 := setCellValueSwallow
    (mergeCellsRaw s3 ⟨R.min_row - N, R.min_col, R.max_row - N, R.max_col⟩)
    (⟨R.min_row - N, R.min_col, R.max_row - N, R.max_col⟩ : MRange).anchor
    (snapshotInfo σ R).value with hs4
  have hs4m : s4.merged
      = s3.merged ++ [⟨R.min_row - N, R.min_col, R.max_row - N, R.max_col⟩] := by
    rw [hs4, setCellValueSwallow_merged, mergeCellsRaw_merged]
  have hmemR' : (⟨R.min_row - N, R.min_col, R.max_row - N, R.max_col⟩ : MRange)
      ∈ s4.merged := by
    rw [hs4m]
    exact List.mem_append_right _ (List.mem_singleton_self _)
  have hsafePre : ∀ i ∈ pre, rebuildFires rows i →
      (rebuiltRect rows i).wf ∧
      (rebuiltRect rows i).contains (R.min_row - N, R.min_col) = false :=
    fun i hi => hsafe i (List.mem_append_left _ hi)
  have hsafePost : ∀ i ∈ post, rebuildFires rows i →
      (rebuiltRect rows i).wf ∧
      (rebuiltRect rows i).contains (R.min_row - N, R.min_col) = false :=
    fun i hi => hsafe i (List.mem_append_right _ hi)
  refine ⟨rebuild_fold_mem_mono rows post s4 _ hmemR', ?_⟩
  by_cases hmaskEnd : isMergedNonAnchor (post.foldl (rebuildOne rows) s4)
      (R.min_row - N, R.min_col) = true
  · -- the shifted anchor ends up inside some surviving merged region: that
    -- region was out of the data columns, so the anchor value was None, and
    -- the masked read returns None as well.
    have hend : getCellValue (post.foldl (rebuildOne rows) s4) (R.min_row - N, R.min_col)
        = none := by
      unfold getCellValue
      rw [if_pos hmaskEnd]
    obtain ⟨K, hK, hKc, hKa⟩ := (isMergedNonAnchor_iff _ _).1 hmaskEnd
    have hKorigin : K ∈ sA.merged := by
      rcases rebuild_fold_mem_origin rows post s4 K hK with h4 | ⟨i, hi, hif, hir⟩
      · rw [hs4m] at h4
        rcases List.mem_append.1 h4 with h3 | h3
        · rcases rebuild_fold_mem_origin rows pre s2 K h3 with h2 | ⟨i, hi, hif, hir⟩
          · rw [hs2, deleteBandDesc_merged] at h2
            exact h2
          · obtain ⟨_, hnc⟩ := hsafePre i hi hif
            rw [← hir, hKc] at hnc
            exact absurd hnc (by simp)
        · rw [List.mem_singleton] at h3
          subst h3
          exact absurd rfl hKa
      · obtain ⟨_, hnc⟩ := hsafePost i hi hif
        rw [← hir, hKc] at hnc
        exact absurd hnc (by simp)
    obtain ⟨hKM, hKni, hKnb⟩ := hAmem K hKorigin
    have hKcb := (MRange.contains_iff K _).1 hKc
    have hKrow : K.min_row ≤ P + N - 1 := by
      by_contra hh
      refine hKnb ?_
      unfold belowOf
      rw [List.mem_filter]
      exact ⟨hKM, by simpa using by omega⟩
    have hKcol : K.max_col < (dataRange s).2.2.1 ∨ (dataRange s).2.2.2 < K.min_col := by
      have hq : ¬(K ∈ s.merged ∧
          (¬(K.max_row < P ∨ P + N - 1 < K.min_row ∨ K.max_col < (dataRange s).2.2.1
            ∨ (dataRange s).2.2.2 < K.min_col) : Bool) = true) := by
        intro hh
        exact hKni (List.mem_filter.2 hh)
      simp only [hKM, true_and, decide_eq_true_eq, not_not] at hq
      rcases hq with h | h | h | h
      · exfalso
        omega
      · exfalso
        omega
      · exact Or.inl h
      · exact Or.inr h
    have hvnone : getCellValue s R.anchor = none := by
      cases hval : getCellValue s R.anchor with
      | none => rfl
      | some x =>
        exfalso
        have hmemD := mem_dataCoords_of_isSome s R.anchor (by rw [hval]; rfl)
        obtain ⟨hd1, hd2⟩ := dataRange_col_bounds s R.anchor hmemD
        have : R.anchor.2 = R.min_col := rfl
        omega
    rw [hend, hvnone]
  · have hnotmask : isMergedNonAnchor (post.foldl (rebuildOne rows) s4)
        (R.min_row - N, R.min_col) = false := by
      cases h : isMergedNonAnchor (post.foldl (rebuildOne rows) s4) (R.min_row - N, R.min_col)
      · rfl
      · exact absurd h hmaskEnd
    rw [getCellValue_eq_raw _ _ hnotmask]
    rw [rebuild_fold_lookup_preserved rows post s4 _ hsafePost]
    have hwritemask : isMergedNonAnchor
        (mergeCellsRaw s3 ⟨R.min_row - N, R.min_col, R.max_row - N, R.max_col⟩)
        (⟨R.min_row - N, R.min_col, R.max_row - N, R.max_col⟩ : MRange).anchor = false := by
      by_contra hh
      rw [Bool.not_eq_false, isMergedNonAnchor_iff] at hh
      obtain ⟨K, hK, hKc, hKa⟩ := hh
      rw [mergeCellsRaw_merged] at hK
      rcases List.mem_append.1 hK with h3 | h3
      · have hKend : K ∈ (post.foldl (rebuildOne rows) s4).merged := by
          refine rebuild_fold_mem_mono rows post s4 K ?_
          rw [hs4m]
          exact List.mem_append_left _ h3
        exact hmaskEnd ((isMergedNonAnchor_iff _ _).2 ⟨K, hKend, hKc, hKa⟩)
      · rw [List.mem_singleton] at h3
        subst h3
        exact absurd rfl hKa
    rw [hs4, setCellValueSwallow_of_not_masked _ _ _ hwritemask]
    show cellsLookup
        (cellsStore
          (mergeCellsRaw s3
            ⟨R.min_row - N, R.min_col, R.max_row - N, R.max_col⟩).cells
          (R.min_row - N, R.min_col) (snapshotInfo σ R).value)
        (R.min_row - N, R.min_col)
      = getCellValue s R.anchor
    rw [cellsLookup_store_self]
    exact hAval

theorem map_rect_snapshot (σ : Sheet) (l : List MRange) :
    (l.map (snapshotInfo σ)).map MergeInfo.rect = l := by
  induction l with
  | nil => rfl
  | cons x l ih =>
    rw [List.map_cons, List.map_cons, snapshotInfo_rect, ih]

theorem foldl_erase_rect (σ : Sheet) (l : List MRange) (m : List MRange) :
    (l.map (snapshotInfo σ)).foldl (fun m i => m.erase i.rect) m
      = l.foldl (fun m r => m.erase r) m := by
  induction l generalizing m with
  | nil => rfl
  | cons x l ih =>
    rw [List.map_cons, List.foldl_cons, List.foldl_cons, snapshotInfo_rect, ih]

theorem snapshots_wf_disj (s σ : Sheet) (R : MRange) (l : List MRange)
    (hd : PairwiseDisjoint s) (hwfAll : ∀ K ∈ s.merged, K.wf) (hR : R ∈ s.merged)
    (hsub : ∀ K ∈ l, K ∈ s.merged) :
    (∀ i ∈ l.map (snapshotInfo σ), i.rect.wf) ∧
    (∀ i ∈ l.map (snapshotInfo σ), i.rect = R ∨ i.rect.Disjoint R) := by
  constructor
  · intro i hi
    obtain ⟨K, hK, rfl⟩ := List.mem_map.1 hi
    rw [snapshotInfo_rect]
    exact hwfAll K (hsub K hK)
  · intro i hi
    obtain ⟨K, hK, rfl⟩ := List.mem_map.1 hi
    rw [snapshotInfo_rect]
    rcases eq_or_ne K R with rfl | hne
    · exact Or.inl rfl
    · exact Or.inr (disjoint_of_mem s hd (hsub K hK) hR hne)

/-- Step 1 of `runRebuild` over snapshot records of valid regions: the merged
list loses exactly the snapshot rectangles. -/
theorem unmergeStep_snapshots (s t σ : Sheet) (R : MRange) (l : List MRange)
    (hd : PairwiseDisjoint s) (hwfAll : ∀ K ∈ s.merged, K.wf) (hR : R ∈ s.merged)
    (hsub : ∀ K ∈ l, K ∈ s.merged)
    (hmask : isMergedNonAnchor t R.anchor = false) :
    ((l.map (snapshotInfo σ)).foldl
        (fun sh i => if i.rect ∈ sh.merged then unmergeCellsRaw sh i.rect else sh) t).merged
      = l.foldl (fun m r => m.erase r) t.merged := by
  obtain ⟨hwfs, hdisjs⟩ := snapshots_wf_disj s σ R l hd hwfAll hR hsub
  have h := (unmergeStep_fold (l.map (snapshotInfo σ)) t R (hwfAll R hR) hwfs hdisjs hmask).1
  rw [h, foldl_erase_rect]

/-- Records snapshotted from valid regions other than `R` are safe: when they
fire they are rebuilt away from `R`'s shifted anchor. -/
theorem safe_of_snapshots (s σ : Sheet) (R : MRange) (P N : Nat) (l : List MRange)
    (hd : PairwiseDisjoint s) (hwfAll : ∀ K ∈ s.merged, K.wf) (hR : R ∈ s.merged)
    (hP : 1 ≤ P) (hbefore : P + N ≤ R.min_row)
    (hsub : ∀ K ∈ l, K ∈ s.merged) (hnR : R ∉ l) :
    ∀ i ∈ l.map (snapshotInfo σ), rebuildFires (rowsToDelete P N) i →
      (rebuiltRect (rowsToDelete P N) i).wf ∧
      (rebuiltRect (rowsToDelete P N) i).contains (R.min_row - N, R.min_col) = false := by
  intro i hi hf
  obtain ⟨K, hKl, rfl⟩ := List.mem_map.1 hi
  have hKM := hsub K hKl
  have hne : K ≠ R := fun hh => hnR (hh ▸ hKl)
  exact safe_record P N K R σ hP (hwfAll K hKM) (hwfAll R hR)
    (disjoint_of_mem s hd hKM hR hne) hbefore hf

/-- C1 counterexample: a single-row merged region (A5:C5, anchor value "v")
strictly below the deleted band (rows 2-3) is NOT recreated after the
deletion — the reconciler's `new_min_row < new_max_row` guard is strict, so
the resulting sheet has no merged region at all, contradicting the claim that
every region strictly below the band is recreated shifted by `count`. -/
theorem one_row_region_below_band_dropped :
    (deleteRowsSheet ⟨[((5, 1), "v")], [⟨5, 1, 5, 3⟩], []⟩ 2 2
        .unmerge_keep_value).merged = [] := by
  decide

/-- C1 (amended: the region must span MORE THAN ONE row; single-row regions
are silently dropped, see the counterexample): for every valid sheet (pairwise
disjoint, well-formed merged regions) and every merged region `R` with
`R.min_row < R.max_row`, if `delete_rows` removes the band
`[P, P+count-1]` lying strictly before `R`, then under every merge policy the
reconciler recreates `R` at rows `[R.min_row - count, R.max_row - count]`,
with the same column bounds and the same anchor value as before the call. -/
theorem delete_rows_recreates_region_strictly_below_band
    (s : Sheet) (R : MRange) (P N : Nat) (mode : MergeMode)
    (hd : PairwiseDisjoint s) (hwfAll : ∀ K ∈ s.merged, K.wf)
    (hR : R ∈ s.merged) (hP : 1 ≤ P) (hband : P + N - 1 < R.min_row)
    (hrowspan : R.min_row < R.max_row) :
    (⟨R.min_row - N, R.min_col, R.max_row - N, R.max_col⟩ : MRange)
        ∈ (deleteRowsSheet s P N mode).merged ∧
    getCellValue (deleteRowsSheet s P N mode) (R.min_row - N, R.min_col)
      = getCellValue s R.anchor := by
  have hbefore : P + N ≤ R.min_row := by omega
  have hwfR := hwfAll R hR
  have hndM := nodup_of_pairwiseDisjoint s hd hwfAll
  have hmask0 := anchor_not_masked s R hd hR hwfR
  have hRb : R ∈ belowOf s P N := by
    unfold belowOf
    rw [List.mem_filter]
    refine ⟨hR, ?_⟩
    simp only [decide_eq_true_eq]
    omega
  have hBsub : ∀ K ∈ belowOf s P N, K ∈ s.merged :=
    fun K hK => (List.mem_filter.1 hK).1
  have hAsub : ∀ K ∈ (intersectingOf s P N ++ belowOf s P N).dedup, K ∈ s.merged := by
    intro K hK
    rcases List.mem_append.1 (List.mem_dedup.1 hK) with h | h
    · exact (List.mem_filter.1 h).1
    · exact hBsub K h
  have hRaff : R ∈ (intersectingOf s P N ++ belowOf s P N).dedup :=
    List.mem_dedup.2 (List.mem_append_right _ hRb)
  have hne : (intersectingOf s P N ++ belowOf s P N).dedup ≠ [] :=
    List.ne_nil_of_mem hRaff
  by_cases hmode : mode = .ignore
  · subst hmode
    rw [deleteRowsSheet_branch_ignore s P N hne]
    rw [runRebuild_nonempty _ _ _ (List.ne_nil_of_mem (List.mem_map_of_mem _ hRaff))]
    obtain ⟨l1, l2, hsplit⟩ := List.append_of_mem hRaff
    have hndA : (l1 ++ R :: l2).Nodup := hsplit ▸ List.nodup_dedup _
    have hR1 : R ∉ l1 := fun hh =>
      List.disjoint_of_nodup_append hndA hh (List.mem_cons_self R l2)
    have hR2 : R ∉ l2 := (List.nodup_cons.1 hndA.of_append_right).1
    refine rebuild_phase_main s _ s R P N (l1.map (snapshotInfo s))
      (l2.map (snapshotInfo s)) _ ?_ hP hwfR hbefore hrowspan ?_ rfl ?_
    · rw [hsplit, List.map_append, List.map_cons]
    · intro K hK
      rw [unmergeStep_snapshots s s s R _ hd hwfAll hR hAsub hmask0] at hK
      obtain ⟨hKM, hKn⟩ :=
        (mem_foldl_erase ((intersectingOf s P N ++ belowOf s P N).dedup)
          s.merged K hndM).1 hK
      refine ⟨hKM, ?_, ?_⟩
      · intro hh
        exact hKn (List.mem_dedup.2 (List.mem_append_left _ hh))
      · intro hh
        exact hKn (List.mem_dedup.2 (List.mem_append_right _ hh))
    · rw [← List.map_append]
      refine safe_of_snapshots s s R P N (l1 ++ l2) hd hwfAll hR hP hbefore ?_ ?_
      · intro K hK
        refine hAsub K ?_
        rw [hsplit]
        rcases List.mem_append.1 hK with h | h
        · exact List.mem_append_left _ h
        · exact List.mem_append_right _ (List.mem_cons_of_mem R h)
      · intro hh
        rcases List.mem_append.1 hh with h | h
        · exact hR1 h
        · exact hR2 h
  · rw [deleteRowsSheet_branch_nonignore s P N mode hmode hne]
    have hsIn : processMergedCellsInRange s
        ((intersectingOf s P N ++ belowOf s P N).dedup) mode
        = ((intersectingOf s P N ++ belowOf s P N).dedup).foldl (processOneMerged mode)
            s := by
      unfold processMergedCellsInRange
      rw [if_neg hmode]
    rw [hsIn]
    obtain ⟨hP1, hP2, hP3⟩ := processMerged_fold mode
      ((intersectingOf s P N ++ belowOf s P N).dedup) s R hmode hwfR
      (fun K hK => hwfAll K (hAsub K hK))
      (fun K hK => by
        rcases eq_or_ne K R with rfl | hne'
        · exact Or.inl rfl
        · exact Or.inr (disjoint_of_mem s hd (hAsub K hK) hR hne'))
      hmask0
    rw [runRebuild_nonempty _ _ _ (List.ne_nil_of_mem (List.mem_map_of_mem _ hRb))]
    obtain ⟨l1, l2, hsplit⟩ := List.append_of_mem hRb
    have hndB : (belowOf s P N).Nodup := hndM.filter _
    have hndB' : (l1 ++ R :: l2).Nodup := hsplit ▸ hndB
    have hR1 : R ∉ l1 := fun hh =>
      List.disjoint_of_nodup_append hndB' hh (List.mem_cons_self R l2)
    have hR2 : R ∉ l2 := (List.nodup_cons.1 hndB'.of_append_right).1
    have hndIn : (((intersectingOf s P N ++ belowOf s P N).dedup).foldl
        (processOneMerged mode) s).merged.Nodup := by
      rw [hP1]
      exact nodup_foldl_erase _ _ hndM
    set sIn := ((intersectingOf s P N ++ belowOf s P N).dedup).foldl
      (processOneMerged mode) s with hsIndef
    refine rebuild_phase_main s _ sIn
      R P N (l1.map (snapshotInfo sIn)) (l2.map (snapshotInfo sIn)) _
      ?_ hP hwfR hbefore hrowspan ?_ ?_ ?_
    · rw [hsplit, List.map_append, List.map_cons]
    · intro K hK
      rw [unmergeStep_snapshots s _ _ R (belowOf s P N) hd hwfAll hR hBsub hP3] at hK
      obtain ⟨hKIn, hKnB⟩ := (mem_foldl_erase (belowOf s P N) _ K hndIn).1 hK
      rw [hP1] at hKIn
      obtain ⟨hKM, hKnA⟩ := (mem_foldl_erase _ s.merged K hndM).1 hKIn
      refine ⟨hKM, ?_, hKnB⟩
      intro hh
      exact hKnA (List.mem_dedup.2 (List.mem_append_left _ hh))
    · show getCellValue _ R.anchor = getCellValue s R.anchor
      rw [getCellValue_eq_raw _ _ hP3, hP2, ← getCellValue_eq_raw s _ hmask0]
    · rw [← List.map_append]
      refine safe_of_snapshots s _ R P N (l1 ++ l2) hd hwfAll hR hP hbefore ?_ ?_
      · intro K hK
        refine hBsub K ?_
        rw [hsplit]
        rcases List.mem_append.1 hK with h | h
        · exact List.mem_append_left _ h
        · exact List.mem_append_right _ (List.mem_cons_of_mem R h)
      · intro hh
        rcases List.mem_append.1 hh with h | h
        · exact hR1 h
        · exact hR2 h

theorem delete_rows_recreates_region_strictly_below_band_witness :
    (⟨3, 1, 4, 2⟩ : MRange)
        ∈ (deleteRowsSheet ⟨[((5, 1), "v")], [⟨5, 1, 6, 2⟩], []⟩ 2 2
            .unmerge_keep_value).merged ∧
    getCellValue (deleteRowsSheet ⟨[((5, 1), "v")], [⟨5, 1, 6, 2⟩], []⟩ 2 2
        .unmerge_keep_value) (3, 1)
      = getCellValue ⟨[((5, 1), "v")], [⟨5, 1, 6, 2⟩], []⟩ (5, 1) :=
  delete_rows_recreates_region_strictly_below_band
    ⟨[((5, 1), "v")], [⟨5, 1, 6, 2⟩], []⟩ ⟨5, 1, 6, 2⟩ 2 2 .unmerge_keep_value
    (by simp [PairwiseDisjoint]) (by decide) (by decide) (by decide) (by decide)
    (by decide)

/-! ## Hidden-row bookkeeping: no pipeline operation touches `row_dimensions`
(the documented openpyxl limitation: `delete_rows` does not shift or clear the
hidden flags), so the sheet-level deletion preserves `hiddenRows` verbatim. -/

theorem fold_setSwallow_hidden (cs : List Coord) (v : Option Val) (s : Sheet) :
    (cs.foldl (fun sh c => setCellValueSwallow sh c v) s).hiddenRows = s.hiddenRows := by
  induction cs generalizing s with
  | nil => rfl
  | cons c cs ih => rw [List.foldl_cons, ih, setCellValueSwallow_hidden]

theorem processOneMerged_hidden (mode : MergeMode) (s : Sheet) (r : MRange) :
    (processOneMerged mode s r).hiddenRows = s.hiddenRows := by
  cases mode with
  | unmerge_keep_value =>
    show (r.memberCoords.foldl
        (fun sh c => setCellValueSwallow sh c (getCellValue s r.anchor))
        (unmergeCellsRaw s r)).hiddenRows = s.hiddenRows
    rw [fold_setSwallow_hidden, unmergeCellsRaw_hidden]
  | unmerge_only =>
    show (setCellValueSwallow (unmergeCellsRaw s r) r.anchor
        (getCellValue s r.anchor)).hiddenRows = s.hiddenRows
    rw [setCellValueSwallow_hidden, unmergeCellsRaw_hidden]
  | ignore => rfl

theorem fold_processOneMerged_hidden (mode : MergeMode) (l : List MRange) (s : Sheet) :
    (l.foldl (processOneMerged mode) s).hiddenRows = s.hiddenRows := by
  induction l generalizing s with
  | nil => rfl
  | cons r l ih => rw [List.foldl_cons, ih, processOneMerged_hidden]

theorem processMergedCellsInRange_hidden (s : Sheet) (regions : List MRange)
    (mode : MergeMode) :
    (processMergedCellsInRange s regions mode).hiddenRows = s.hiddenRows := by
  unfold processMergedCellsInRange
  by_cases h : mode = .ignore
  · rw [if_pos h]
  · rw [if_neg h, fold_processOneMerged_hidden]

theorem rebuildOne_hidden (rows : List Nat) (s : Sheet) (i : MergeInfo) :
    (rebuildOne rows s i).hiddenRows = s.hiddenRows := by
  unfold rebuildOne
  split_ifs <;>
    first
      | rfl
      | rw [setCellValueSwallow_hidden, mergeCellsRaw_hidden]

theorem fold_rebuildOne_hidden (rows : List Nat) (l : List MergeInfo) (s : Sheet) :
    (l.foldl (rebuildOne rows) s).hiddenRows = s.hiddenRows := by
  induction l generalizing s with
  | nil => rfl
  | cons i l ih => rw [List.foldl_cons, ih, rebuildOne_hidden]

theorem fold_unmergeIf_hidden (l : List MergeInfo) (s : Sheet) :
    (l.foldl (fun sh i => if i.rect ∈ sh.merged then unmergeCellsRaw sh i.rect else sh)
        s).hiddenRows = s.hiddenRows := by
  induction l generalizing s with
  | nil => rfl
  | cons i l ih =>
    rw [List.foldl_cons, ih]
    by_cases h : i.rect ∈ s.merged
    · rw [if_pos h, unmergeCellsRaw_hidden]
    · rw [if_neg h]

theorem runRebuild_hidden (s : Sheet) (info : List MergeInfo) (rows : List Nat) :
    (runRebuild s info rows).hiddenRows = s.hiddenRows := by
  by_cases h : info = []
  · subst h
    show (deleteBandDesc s rows).hiddenRows = s.hiddenRows
    rw [deleteBandDesc_hidden]
  · rw [runRebuild_nonempty s info rows h, fold_rebuildOne_hidden, deleteBandDesc_hidden,
      fold_unmergeIf_hidden]

theorem deleteRowsSheet_hidden (s : Sheet) (p n : Nat) (mode : MergeMode) :
    (deleteRowsSheet s p n mode).hiddenRows = s.hiddenRows := by
  simp only [deleteRowsSheet]
  split_ifs
  · rw [runRebuild_hidden, processMergedCellsInRange_hidden]
  · rw [runRebuild_hidden]
  · rw [deleteBandDesc_hidden]

/-! ## Batch-state lemmas for `delete_rows` over files and sheets -/

theorem wbFold_nil (idxs : List Nat) (p n : Nat) (m : MergeMode) :
    (idxs.foldl
      (fun wb i => if h : i < wb.length then wb.set i (deleteRowsSheet wb[i] p n m) else wb)
      ([] : Workbook)) = [] := by
  induction idxs with
  | nil => rfl
  | cons j idxs ih =>
    rw [List.foldl_cons, dif_neg (by simp)]
    exact ih

theorem wbFold_getD_hidden (idxs : List Nat) (p n : Nat) (m : MergeMode) (wb : Workbook)
    (i : Nat) :
    ((idxs.foldl
        (fun wb j => if h : j < wb.length then wb.set j (deleteRowsSheet wb[j] p n m) else wb)
        wb).getD i ⟨[], [], []⟩).hiddenRows
      = (wb.getD i ⟨[], [], []⟩).hiddenRows := by
  induction idxs generalizing wb with
  | nil => rfl
  | cons j idxs ih =>
    rw [List.foldl_cons, ih]
    by_cases h : j < wb.length
    · rw [dif_pos h]
      by_cases hij : i = j
      · subst hij
        rw [List.getD_eq_getElem _ _ (by simpa using h), List.getElem_set_self,
          List.getD_eq_getElem _ _ h, deleteRowsSheet_hidden]
      · rw [List.getD_eq_getElem?_getD, List.getElem?_set_ne (fun hh => hij hh.symm),
          ← List.getD_eq_getElem?_getD]
    · rw [dif_neg h]

theorem deleteRowsBatch_getD (files : List Workbook) (idxs : List Nat) (p n : Nat)
    (m : MergeMode) (fi : Nat) :
    (deleteRowsBatch files idxs p n m).getD fi []
      = idxs.foldl
          (fun wb i => if h : i < wb.length then wb.set i (deleteRowsSheet wb[i] p n m)
            else wb)
          (files.getD fi []) := by
  unfold deleteRowsBatch
  by_cases hf : fi < files.length
  · rw [List.getD_eq_getElem _ _ (by simpa using hf), List.getElem_map,
      List.getD_eq_getElem _ _ hf]
  · have h1 : files.length ≤ fi := le_of_not_lt hf
    rw [List.getD_eq_default _ _ (by simpa using h1), List.getD_eq_default _ _ h1,
      wbFold_nil]

/-! ## Batch-state lemmas for `setSheet` and hidden-row detection -/

theorem setSheet_getD_self (files : List Workbook) (f0 j0 : Nat) (sh : Sheet)
    (hf0 : f0 < files.length) :
    (setSheet files f0 j0 sh).getD f0 [] = (files.getD f0 []).set j0 sh := by
  unfold setSheet
  rw [List.getD_eq_getElem _ _ (by simpa using hf0), List.getElem_set_self]

theorem setSheet_getD_other (files : List Workbook) (f0 j0 fi : Nat) (sh : Sheet)
    (h : fi ≠ f0) :
    (setSheet files f0 j0 sh).getD fi [] = files.getD fi [] := by
  unfold setSheet
  rw [List.getD_eq_getElem?_getD, List.getElem?_set_ne (fun hh => h hh.symm),
    ← List.getD_eq_getElem?_getD]

theorem hiddenRowsOf_nil (sh : Sheet) (h : sh.hiddenRows = []) : hiddenRowsOf sh = [] := by
  unfold hiddenRowsOf
  rw [h]
  simp

theorem filter_eqr_nil (l : List Nat) (r : Nat) (h : r ∉ l) :
    l.filter (fun x => [r].contains x) = [] := by
  induction l with
  | nil => rfl
  | cons a l ih =>
    have ha : a ≠ r := fun hh => h (hh ▸ List.mem_cons_self a l)
    rw [List.filter_cons, if_neg (by simp [ha])]
    exact ih (fun hh => h (List.mem_cons_of_mem a hh))

theorem filter_eqr_single (l : List Nat) (r : Nat) (hnd : l.Nodup) (hr : r ∈ l) :
    l.filter (fun x => [r].contains x) = [r] := by
  induction l with
  | nil => cases hr
  | cons a l ih =>
    rcases List.mem_cons.1 hr with rfl | hmem
    · rw [List.filter_cons, if_pos (by simp)]
      rw [filter_eqr_nil l r (List.nodup_cons.1 hnd).1]
    · have ha : a ≠ r := fun hh => (List.nodup_cons.1 hnd).1 (hh ▸ hmem)
      rw [List.filter_cons, if_neg (by simp [ha])]
      exact ih (List.nodup_cons.1 hnd).2 hmem

theorem hiddenRowsOf_single (sh : Sheet) (r : Nat) (h : sh.hiddenRows = [r])
    (hr1 : 1 ≤ r) (hr2 : r ≤ 1000) : hiddenRowsOf sh = [r] := by
  unfold hiddenRowsOf
  rw [h]
  refine filter_eqr_single _ r ?_ ?_
  · exact (List.nodup_range _).map (fun a b hab => by omega)
  · refine List.mem_map.2 ⟨r - 1, ?_, by omega⟩
    rw [List.mem_range]
    have : 1000 ≤ max (maxRowSheet sh) 1000 := le_max_right _ _
    omega

/-! ## Skip lemmas for the hidden-row scan -/

theorem hiddenSheetStep_clear (idxs : List Nat) (mode : MergeMode) (fi : Nat)
    (st : List Workbook) (i : Nat)
    (h : hiddenRowsOf ((st.getD fi []).getD i ⟨[], [], []⟩) = []) :
    hiddenSheetStep idxs mode fi st i = st := by
  unfold hiddenSheetStep
  by_cases hg : i < (st.getD fi []).length
  · rw [if_pos hg]
    show (if hiddenRowsOf ((st.getD fi []).getD i ⟨[], [], []⟩) = [] then st else _) = st
    rw [if_pos h]
  · rw [if_neg hg]

theorem inner_fold_clear (l idxs : List Nat) (mode : MergeMode) (fi : Nat)
    (st : List Workbook)
    (h : ∀ i ∈ l, hiddenRowsOf ((st.getD fi []).getD i ⟨[], [], []⟩) = []) :
    l.foldl (hiddenSheetStep idxs mode fi) st = st := by
  induction l with
  | nil => rfl
  | cons j l ih =>
    rw [List.foldl_cons, hiddenSheetStep_clear idxs mode fi st j (h j (List.mem_cons_self j l))]
    exact ih (fun i hi => h i (List.mem_cons_of_mem j hi))

theorem outer_fold_clear (fis idxs : List Nat) (mode : MergeMode) (st : List Workbook)
    (h : ∀ fi ∈ fis, ∀ i ∈ idxs, hiddenRowsOf ((st.getD fi []).getD i ⟨[], [], []⟩) = []) :
    fis.foldl (hiddenFileStep idxs mode) st = st := by
  induction fis with
  | nil => rfl
  | cons f fis ih =>
    rw [List.foldl_cons]
    have hx : hiddenFileStep idxs mode st f = st :=
      inner_fold_clear idxs idxs mode f st (h f (List.mem_cons_self f fis))
    rw [hx]
    exact ih (fun fi hfi => h fi (List.mem_cons_of_mem f hfi))

/-- C10: `delete_hidden_rows` delegates each detected hidden row to
`delete_rows` with the FULL `file_paths` and `sheet_indexes` lists.  On a
batch whose only hidden row (among the selected sheets) is row `r` of sheet
`j0` of file `f0`, the whole operation equals: clear that hidden flag, then
run the batch `delete_rows(file_paths, sheet_indexes, r, 1, mode)` — so the
row is removed from EVERY file and every selected sheet, not only where the
flag was found. -/
theorem delete_hidden_rows_delegates_to_batch
    (files : List Workbook) (idxs : List Nat) (mode : MergeMode) (f0 j0 r : Nat)
    (hnd : idxs.Nodup) (hf0 : f0 < files.length) (hj0mem : j0 ∈ idxs)
    (hj0lt : j0 < (files.getD f0 []).length)
    (hr1 : 1 ≤ r) (hr2 : r ≤ 1000)
    (hhid : ((files.getD f0 []).getD j0 ⟨[], [], []⟩).hiddenRows = [r])
    (hothers : ∀ fi, fi < files.length → ∀ i ∈ idxs, ¬(fi = f0 ∧ i = j0) →
      i < (files.getD fi []).length →
      ((files.getD fi []).getD i ⟨[], [], []⟩).hiddenRows = []) :
    deleteHiddenRowsBatch files idxs mode
      = deleteRowsBatch
          (setSheet files f0 j0
            (clearHidden ((files.getD f0 []).getD j0 ⟨[], [], []⟩) r))
          idxs r 1 mode := by
  obtain ⟨li1, li2, hsplitI⟩ := List.append_of_mem hj0mem
  subst hsplitI
  have hj0n1 : j0 ∉ li1 := fun hh =>
    List.disjoint_of_nodup_append hnd hh (List.mem_cons_self j0 li2)
  have hclear0 : ∀ fi i, i ∈ li1 ++ j0 :: li2 → ¬(fi = f0 ∧ i = j0) →
      hiddenRowsOf ((files.getD fi []).getD i ⟨[], [], []⟩) = [] := by
    intro fi i hi hne
    by_cases hfl : fi < files.length
    · by_cases hil : i < (files.getD fi []).length
      · exact hiddenRowsOf_nil _ (hothers fi hfl i hi hne hil)
      · rw [List.getD_eq_default _ _ (le_of_not_lt hil)]
        exact hiddenRowsOf_nil _ rfl
    · rw [List.getD_eq_default _ _ (le_of_not_lt hfl),
        List.getD_eq_default _ _ (by simp)]
      exact hiddenRowsOf_nil _ rfl
  have hafter : ∀ fi i, i ∈ li1 ++ j0 :: li2 →
      hiddenRowsOf (((deleteRowsBatch
          (setSheet files f0 j0
            (clearHidden ((files.getD f0 []).getD j0 ⟨[], [], []⟩) r))
          (li1 ++ j0 :: li2) r 1 mode).getD fi []).getD i ⟨[], [], []⟩) = [] := by
    intro fi i hi
    refine hiddenRowsOf_nil _ ?_
    rw [deleteRowsBatch_getD, wbFold_getD_hidden]
    by_cases hfi : fi = f0
    · subst hfi
      rw [setSheet_getD_self _ _ _ _ hf0]
      by_cases hij : i = j0
      · subst hij
        rw [List.getD_eq_getElem _ _ (by simpa using hj0lt), List.getElem_set_self]
        show (((files.getD fi []).getD i ⟨[], [], []⟩).hiddenRows.filter
          fun x => ¬(x = r)) = []
        rw [hhid]
        simp
      · rw [List.getD_eq_getElem?_getD, List.getElem?_set_ne (fun hh => hij hh.symm),
          ← List.getD_eq_getElem?_getD]
        by_cases hil : i < (files.getD fi []).length
        · exact hothers fi hf0 i hi (fun hh => hij hh.2) hil
        · rw [List.getD_eq_default _ _ (le_of_not_lt hil)]
    · rw [setSheet_getD_other _ _ _ _ _ hfi]
      by_cases hfl : fi < files.length
      · by_cases hil : i < (files.getD fi []).length
        · exact hothers fi hfl i hi (fun hh => hfi hh.1) hil
        · rw [List.getD_eq_default _ _ (le_of_not_lt hil)]
      · rw [List.getD_eq_default _ _ (le_of_not_lt hfl),
          List.getD_eq_default _ _ (by simp)]
  unfold deleteHiddenRowsBatch
  have hf0r : f0 < (List.range files.length).length := by simpa using hf0
  have hsplitR : List.range files.length
      = (List.range files.length).take f0 ++ f0 :: (List.range files.length).drop (f0 + 1) := by
    conv_lhs => rw [← List.take_append_drop f0 (List.range files.length)]
    rw [List.drop_eq_getElem_cons hf0r, List.getElem_range]
  rw [hsplitR, List.foldl_append, List.foldl_cons]
  have hstage1 : ((List.range files.length).take f0).foldl
      (hiddenFileStep (li1 ++ j0 :: li2) mode) files = files := by
    refine outer_fold_clear _ _ mode files ?_
    intro fi hfi i hi
    have hlt : fi < f0 := by
      rw [List.take_range] at hfi
      exact lt_of_lt_of_le (List.mem_range.1 hfi) (min_le_left _ _)
    exact hclear0 fi i hi (fun hh => absurd hh.1 (Nat.ne_of_lt hlt))
  rw [hstage1]
  have hmid : hiddenFileStep (li1 ++ j0 :: li2) mode files f0
      = deleteRowsBatch (setSheet files f0 j0
          (clearHidden ((files.getD f0 []).getD j0 ⟨[], [], []⟩) r))
          (li1 ++ j0 :: li2) r 1 mode := by
    unfold hiddenFileStep
    rw [List.foldl_append, List.foldl_cons]
    have hpre : li1.foldl (hiddenSheetStep (li1 ++ j0 :: li2) mode f0) files = files := by
      refine inner_fold_clear _ _ mode f0 files ?_
      intro i hi
      exact hclear0 f0 i (List.mem_append_left _ hi) (fun hh => hj0n1 (hh.2 ▸ hi))
    rw [hpre]
    have hhs : hiddenRowsOf ((files.getD f0 []).getD j0 ⟨[], [], []⟩) = [r] :=
      hiddenRowsOf_single _ r hhid hr1 hr2
    have hstep : hiddenSheetStep (li1 ++ j0 :: li2) mode f0 files j0
        = deleteRowsBatch (setSheet files f0 j0
            (clearHidden ((files.getD f0 []).getD j0 ⟨[], [], []⟩) r))
            (li1 ++ j0 :: li2) r 1 mode := by
      unfold hiddenSheetStep
      rw [if_pos hj0lt]
      simp only [hhs]
      rw [if_neg (by simp)]
      rfl
    rw [hstep]
    exact inner_fold_clear li2 _ mode f0 _
      (fun i hi => hafter f0 i (List.mem_append_right _ (List.mem_cons_of_mem _ hi)))
  rw [hmid]
  exact outer_fold_clear _ _ mode _ (fun fi _ i hi => hafter fi i hi)

theorem delete_hidden_rows_delegates_to_batch_witness :
    deleteHiddenRowsBatch
        [[⟨[((1, 1), "a"), ((2, 1), "b"), ((3, 1), "c")], [], [2]⟩],
         [⟨[((2, 1), "x")], [], []⟩]] [0] .ignore
      = deleteRowsBatch
          (setSheet
            [[⟨[((1, 1), "a"), ((2, 1), "b"), ((3, 1), "c")], [], [2]⟩],
             [⟨[((2, 1), "x")], [], []⟩]] 0 0
            (clearHidden
              ((([[⟨[((1, 1), "a"), ((2, 1), "b"), ((3, 1), "c")], [], [2]⟩],
                  [⟨[((2, 1), "x")], [], []⟩]].getD 0 []).getD 0 ⟨[], [], []⟩)) 2))
          [0] 2 1 .ignore :=
  delete_hidden_rows_delegates_to_batch
    [[⟨[((1, 1), "a"), ((2, 1), "b"), ((3, 1), "c")], [], [2]⟩],
     [⟨[((2, 1), "x")], [], []⟩]] [0] .ignore 0 0 2
    (by decide) (by decide) (by decide) (by decide) (by decide) (by decide)
    (by decide) (by decide)

end ExcelBatch
